import Mathlib

/-!
# go-mitmproxy: host/port codec, connection lifecycle and entry router

A shallow embedding of `internal/helper/host_port.go`, `proxy/entry.go`,
`proxy/helper.go`, `proxy/websocket.go`, `proxy/proxy.go` and `proxy/addon.go`.

Stateful code is embedded as functions on an explicit state (`World`) that record what
they do in a trace of `Event`s, in program order.  Calls that leave the embedded files
(the attacker, the standard library) appear as events; the outcomes of operations on the
network are inputs (`Env`, `Transport`).  Logging is left out except in `logErr`.

Go strings are modelled as `List Char`.  The delimiters the codec looks at
(the colon, the two square brackets and the decimal digits) are ASCII, so byte
indexing (`strings.LastIndexByte`, slicing) and rune iteration (`range`)
coincide with positions in the character list.
-/

namespace helper

/-- Go `strings.IndexByte`: position of the first `c` in `s`; `none` stands for `-1`. -/
def IndexByte : List Char → Char → Option Nat
  | [], _ => none
  | x :: xs, c => if x = c then some 0 else (IndexByte xs c).map (· + 1)

/-- Go `strings.LastIndexByte`: position of the last `c` in `s`; `none` stands for `-1`. -/
def LastIndexByte : List Char → Char → Option Nat
  | [], _ => none
  | x :: xs, c =>
    match LastIndexByte xs c with
    | some i => some (i + 1)
    | none => if x = c then some 0 else none

/-- Go `strings.HasPrefix`. -/
def HasPrefix (s pre : List Char) : Bool := pre.isPrefixOf s

/-- Go `strings.HasSuffix`. -/
def HasSuffix (s suf : List Char) : Bool := suf.isSuffixOf s

/-- The function `validOptionalPort`: `port` is empty or matches `/^:\d*$/`. -/
def validOptionalPort (port : List Char) : Bool :=
  match port with
  | [] => true
  | p0 :: rest =>
    if p0 ≠ ':' then false
    else rest.all (fun b => !(decide (b < '0') || decide (b > '9')))

/-- The function `SplitHostPort`: returns `(host, port)`. -/
def SplitHostPort (hostPort : List Char) : List Char × List Char :=
  let host := hostPort
  let split : List Char × List Char :=
    match LastIndexByte host ':' with
    | some colon =>
      if validOptionalPort (host.drop colon) then (host.take colon, host.drop (colon + 1))
      else (host, [])
    | none => (host, [])
  let host := split.1
  let port := split.2
  if HasPrefix host ['['] && HasSuffix host [']'] then
    ((host.take (host.length - 1)).drop 1, port)
  else (host, port)

/-- The function `JoinHostPort`. -/
def JoinHostPort (host port : List Char) : List Char :=
  let host := if (IndexByte host ':').isSome then ['['] ++ host ++ [']'] else host
  if port = [] then host
  else host ++ [':'] ++ port

/-- The second half of `SplitHostPort`: strip one pair of enclosing brackets from `host`. -/
def stripBrackets (host port : List Char) : List Char × List Char :=
  if HasPrefix host ['['] && HasSuffix host [']'] then
    ((host.take (host.length - 1)).drop 1, port)
  else (host, port)

end helper

namespace proxy

/-- Go `error`; `none` is `nil`. -/
abbrev Err := Option String

/-- The type `url.URL`, reduced to the fields `ServeHTTP` reads. -/
structure URL where
  Scheme : String
  Host : String

/-- Go `(*url.URL).IsAbs`: the URL has a non-empty scheme. -/
def URL.IsAbs (u : URL) : Bool := u.Scheme != ""

/-- The type `http.Request`, reduced to the fields the entry code reads. -/
structure Request where
  Method : String
  URL : URL
  Host : List Char

/-- Dynamic type behind the `net.Conn` interface value stored in `ClientConn.Conn`.
`wrapListener.Accept` hands its `*wrapClientConn` to `newConnContext`, and
`wrapServerConn.Close` type-asserts `cconn.Conn.(*wrapClientConn)`. -/
inductive ConnImpl where
  | wrapClientConn
  | foreign
  deriving DecidableEq, Repr

/-- The type `ClientConn` (its declaration is in `connection.go`): the fields read by the
entry code. -/
structure ClientConn where
  Conn : ConnImpl
  Tls : Bool
  UpstreamCert : Bool
  deriving DecidableEq, Repr

/-- A call an addon makes on the `http.ResponseWriter` it is handed. -/
inductive WriterCall where
  | WriteHeader (statusCode : Nat)
  | Write (body : String)
  | HeaderSet (key value : String)
  deriving DecidableEq, Repr

/-- Everything the modelled code does that is visible outside it, in program order. -/
inductive Event where
  | ClientConnected (addon : String)
  | ClientDisconnected (addon : String)
  | ServerDisconnected (addon : String)
  | AccessProxyServer (addon : String)
  | Request (addon : String)
  | Response (addon : String)
  | addonWrite (addon : String) (call : WriterCall)
  | enterClientClose
  | enterServerClose
  | clientTransportClose
  | serverTransportClose
  | closeChan
  | clientCloseRead
  | foreignConnClose
  | call (fn : String)
  | Hijack
  | connHijacked
  | WriteHeader (statusCode : Nat)
  | Write (body : String)
  | dial (fn : String)
  | netDial (address : List Char)
  | tlsDial (host : List Char)
  | connWrite (data : String)
  | serverWrite
  | Peek (n : Nat)
  | setTls
  | transfer
  | cconnClose
  | connClose
  | flowFinish
  | panic
  deriving DecidableEq, Repr

/-- The interface `Addon`.  Hook bodies are external code: an invocation is recorded as an
`Event` carrying the addon's name.  Two hooks act on what they are handed:
`ClientConnected` may assign fields of the `*ClientConn` (as `UpstreamCertAddon` does) and
`AccessProxyServer` may write to the response. -/
structure Addon where
  name : String
  ClientConnected : ClientConn → ClientConn
  AccessProxyServer : Request → List WriterCall

/-- The type `Proxy`: the addon registry and the intercept rule. -/
structure Proxy where
  Addons : List Addon
  shouldIntercept : Option (Request → Bool)

/-- The function `NewProxy`: `Addons: make([]Addon, 0)`, no intercept rule. -/
def NewProxy : Proxy := { Addons := [], shouldIntercept := none }

/-- The method `Proxy.AddAddon`: `append(proxy.Addons, addon)`. -/
def Proxy.AddAddon (proxy : Proxy) (addon : Addon) : Proxy :=
  { proxy with Addons := proxy.Addons ++ [addon] }

/-- The method `Proxy.SetShouldInterceptRule`. -/
def Proxy.SetShouldInterceptRule (proxy : Proxy) (rule : Request → Bool) : Proxy :=
  { proxy with shouldIntercept := some rule }

/-- The loop `for _, addon := range proxy.Addons { addon.Hook(...) }`: one event per
iteration, appended in iteration order. -/
def dispatch (hook : String → Event) : List Addon → List Event → List Event
  | [], trace => trace
  | addon :: rest, trace => dispatch hook rest (trace ++ [hook addon.name])

/-- The transport wrapped by a connection wrapper (the embedded `net.Conn`).  `closeResult k`
is what its `Close` returns on the call number `k` (counted from 0); `isTCP` says whether it
is a non-nil `*net.TCPConn`. -/
structure Transport where
  isTCP : Bool
  closeCalls : Nat
  closeResult : Nat → Err

/-- The close-related fields of `wrapClientConn`; `closeMu` is `true` while the mutex is
held. -/
structure wrapClientConn where
  closeMu : Bool
  closed : Bool
  closeErr : Err

/-- The close-related fields of `wrapServerConn`; `closeMu` is `true` while the mutex is
held. -/
structure wrapServerConn where
  closeMu : Bool
  closed : Bool
  closeErr : Err

/-- One client/server pair sharing a `ConnContext`: the two wrappers, their transports and
the context fields the two `Close` methods read.  `ServerConn` stands for
`connCtx.ServerConn != nil && connCtx.ServerConn.Conn != nil`; that `Conn` is the
`wrapServerConn` of the pair. -/
structure World where
  proxy : Proxy
  wcc : wrapClientConn
  wsc : wrapServerConn
  ClientConn : Option ClientConn
  ServerConn : Bool
  closeAfterResponse : Bool
  clientTransport : Transport
  serverTransport : Transport
  trace : List Event

/-- How a call ends: it returns, it waits forever on a mutex that is already held
(`sync.Mutex` is not reentrant), or the fuel of the model ran out. -/
inductive Outcome where
  | returned (err : Err) (w : World)
  | blocked (w : World)
  | outOfFuel

/-- Append events to the trace. -/
def World.emit (w : World) (es : List Event) : World := { w with trace := w.trace ++ es }

/-- The deferred `c.closeMu.Unlock()` of `wrapClientConn.Close`. -/
def World.unlockClient (w : World) : World := { w with wcc := { w.wcc with closeMu := false } }

/-- The deferred `c.closeMu.Unlock()` of `wrapServerConn.Close`. -/
def World.unlockServer (w : World) : World := { w with wsc := { w.wsc with closeMu := false } }

/-- The method `wrapClientConn.CloseRead`: closes the read half when the transport is a
`*net.TCPConn`, does nothing otherwise. -/
def wrapClientConn.CloseRead (w : World) : World :=
  if w.clientTransport.isTCP then w.emit [.clientCloseRead] else w

mutual

/-- The method `wrapClientConn.Close`. -/
def wrapClientConn.Close : Nat → World → Outcome
  | 0, _ => .outOfFuel
  | fuel + 1, w =>
    let w := w.emit [.enterClientClose]
    -- c.closeMu.Lock(); defer c.closeMu.Unlock()
    if w.wcc.closeMu then .blocked w else
    let w := { w with wcc := { w.wcc with closeMu := true } }
    if w.wcc.closed then .returned w.wcc.closeErr w.unlockClient else
    -- c.closed = true; c.closeErr = c.Conn.Close(); close(c.closeChan)
    let w := { w with
      wcc := { w.wcc with
        closed := true
        closeErr := w.clientTransport.closeResult w.clientTransport.closeCalls }
      clientTransport := { w.clientTransport with
        closeCalls := w.clientTransport.closeCalls + 1 } }
    let w := w.emit [.clientTransportClose, .closeChan]
    let w := { w with trace := dispatch .ClientDisconnected w.proxy.Addons w.trace }
    -- c.connCtx.ServerConn.Conn.Close()
    if w.ServerConn then
      match wrapServerConn.Close fuel w with
      | .returned _ w => .returned w.wcc.closeErr w.unlockClient
      | .blocked w => .blocked w
      | .outOfFuel => .outOfFuel
    else .returned w.wcc.closeErr w.unlockClient

/-- The method `wrapServerConn.Close`. -/
def wrapServerConn.Close : Nat → World → Outcome
  | 0, _ => .outOfFuel
  | fuel + 1, w =>
    let w := w.emit [.enterServerClose]
    -- c.closeMu.Lock(); defer c.closeMu.Unlock()
    if w.wsc.closeMu then .blocked w else
    let w := { w with wsc := { w.wsc with closeMu := true } }
    if w.wsc.closed then .returned w.wsc.closeErr w.unlockServer else
    -- c.closed = true; c.closeErr = c.Conn.Close()
    let w := { w with
      wsc := { w.wsc with
        closed := true
        closeErr := w.serverTransport.closeResult w.serverTransport.closeCalls }
      serverTransport := { w.serverTransport with
        closeCalls := w.serverTransport.closeCalls + 1 } }
    let w := w.emit [.serverTransportClose]
    let w := { w with trace := dispatch .ServerDisconnected w.proxy.Addons w.trace }
    match w.ClientConn with
    | none => .returned w.wsc.closeErr w.unlockServer
    | some cconn =>
      if !cconn.Tls then
        -- if wcc, ok := cconn.Conn.(*wrapClientConn); ok && wcc != nil
        match cconn.Conn with
        | .wrapClientConn =>
          let w := wrapClientConn.CloseRead w
          .returned w.wsc.closeErr w.unlockServer
        | .foreign => .returned w.wsc.closeErr w.unlockServer
      else if !w.closeAfterResponse then
        -- cconn.Conn.Close(), dispatched on the dynamic type of cconn.Conn
        match cconn.Conn with
        | .wrapClientConn =>
          match wrapClientConn.Close fuel w with
          | .returned _ w => .returned w.wsc.closeErr w.unlockServer
          | .blocked w => .blocked w
          | .outOfFuel => .outOfFuel
        | .foreign =>
          let w := w.emit [.foreignConnClose]
          .returned w.wsc.closeErr w.unlockServer
      else .returned w.wsc.closeErr w.unlockServer

end

/-- Whether the call blocked. -/
def Outcome.isBlocked : Outcome → Bool
  | .blocked _ => true
  | _ => false

/-- Whether the call returned. -/
def Outcome.isReturned : Outcome → Bool
  | .returned _ _ => true
  | _ => false

/-- The events up to the point where the call returned or blocked. -/
def Outcome.trace : Outcome → List Event
  | .returned _ w => w.trace
  | .blocked w => w.trace
  | .outOfFuel => []

/-- The value `n` successive calls of `close` return, in call order, with the final state;
`none` when one of them does not return. -/
def closeSeq (close : World → Outcome) : Nat → World → Option (List Err × World)
  | 0, w => some ([], w)
  | n + 1, w =>
    match close w with
    | .returned err w1 =>
      match closeSeq close n w1 with
      | some (errs, w2) => some (err :: errs, w2)
      | none => none
    | _ => none

/-- The configuration in which a close started on one wrapper comes back to it: both
wrappers open, the server connection registered in the context, the client marked `Tls`,
`closeAfterResponse` unset, and `ClientConn.Conn` holding the `wrapClientConn`. -/
def World.reentrant (w : World) : Bool :=
  w.ServerConn && !w.wcc.closed && !w.wsc.closed && !w.closeAfterResponse &&
    (match w.ClientConn with
     | some cconn => cconn.Tls && decide (cconn.Conn = .wrapClientConn)
     | none => false)

/-- Recognises the `ClientDisconnected` hook calls in a trace. -/
def Event.isClientDisconnected : Event → Bool
  | .ClientDisconnected _ => true
  | _ => false

/-- Recognises the `ServerDisconnected` hook calls in a trace. -/
def Event.isServerDisconnected : Event → Bool
  | .ServerDisconnected _ => true
  | _ => false

/-- What `wrapListener.Accept` hands back: the error, the `ClientConn` of the new context as
the addons left it, and the events that happened before the return. -/
structure Accepted where
  err : Err
  ClientConn : Option ClientConn
  trace : List Event

/-- The loop `for _, addon := range proxy.Addons { addon.ClientConnected(connCtx.ClientConn) }`
of `wrapListener.Accept`. -/
def clientConnectedLoop : List Addon → ClientConn → List Event → ClientConn × List Event
  | [], cconn, trace => (cconn, trace)
  | addon :: rest, cconn, trace =>
    clientConnectedLoop rest (addon.ClientConnected cconn)
      (trace ++ [.ClientConnected addon.name])

/-- The method `wrapListener.Accept`.  `acceptErr` is the error of `l.Listener.Accept()`,
`cconn` the `ClientConn` that `newConnContext` builds around the new wrapper. -/
def wrapListener.Accept (proxy : Proxy) (acceptErr : Err) (cconn : ClientConn) : Accepted :=
  match acceptErr with
  | some err => { err := some err, ClientConn := none, trace := [] }
  | none =>
    let r := clientConnectedLoop proxy.Addons cconn []
    { err := none, ClientConn := some r.1, trace := r.2 }

/-- Outcomes of the operations the entry code performs on its environment while it serves one
request. -/
structure Env where
  /-- The response writer implements `http.Hijacker`. -/
  Hijacker : Bool
  /-- The error returned by `Hijack()`. -/
  HijackErr : Err
  /-- The error returned by the upstream dial. -/
  dialErr : Err
  /-- The error returned by the first write on a raw connection. -/
  writeErr : Err
  /-- The result of `Peek(3)` on the client connection. -/
  peek : Except String (List Nat)
  /-- The function `helper.IsTls`. -/
  IsTls : List Nat → Bool
  /-- The error returned by `httputil.DumpRequest`. -/
  DumpRequestErr : Err

/-- How a handler ends: it returns, it never returns because a `Close` it called waits on a
held mutex, it panics, or the fuel of the model ran out. -/
inductive Ending where
  | returned
  | blocked
  | panicked
  | outOfFuel
  deriving DecidableEq, Repr

/-- What a handler did, in program order, and how it ended. -/
structure Run where
  trace : List Event
  ending : Ending

/-- The events `es`, then the run `r`. -/
def Run.after (es : List Event) (r : Run) : Run := ⟨es ++ r.trace, r.ending⟩

/-- The run `r`, then the events `rest` if `r` returned. -/
def Run.andThen (r : Run) (rest : List Event) : Run :=
  match r.ending with
  | .returned => ⟨r.trace ++ rest, .returned⟩
  | _ => r

/-- Go `defer` of calls that cannot block: they run when the body returns and when it
panics, not when it never comes back. -/
def Run.deferred (body : Run) (es : List Event) : Run :=
  match body.ending with
  | .returned => ⟨body.trace ++ es, .returned⟩
  | .panicked => ⟨body.trace ++ es, .panicked⟩
  | _ => body

/-- The call `cconn.Close()` on the hijacked client connection.  The connection the entry
server hands out on `Hijack` is the one `wrapListener.Accept` returned, a `*wrapClientConn`
(the entry code asserts `cconn.(*wrapClientConn)`), so the call is `wrapClientConn.Close`.
`w` is the state of the client/server pair when the call is made. -/
def cconnClose (fuel : Nat) (w : World) : Run :=
  match wrapClientConn.Close fuel { w with trace := [] } with
  | .returned _ w1 => ⟨w1.trace, .returned⟩
  | .blocked w1 => ⟨w1.trace, .blocked⟩
  | .outOfFuel => ⟨[], .outOfFuel⟩

/-- How `establishConnection` ends: with the hijacked connection, with an error, in the
panic of the unchecked type assertion `res.(http.Hijacker)`, or not at all when the
`cconn.Close()` after a failed write does not come back. -/
inductive Established where
  | ok
  | err
  | panic
  | blocked
  | outOfFuel
  deriving DecidableEq, Repr

/-- The end of `establishConnection` after its `cconn.Close()`. -/
def Established.afterClose : Ending → Established
  | .returned => .err
  | .blocked => .blocked
  | .panicked => .panic
  | .outOfFuel => .outOfFuel

/-- Go `http.Error`: sets the status and writes the message followed by a newline. -/
def httpError (msg : String) (code : Nat) : List Event :=
  [.WriteHeader code, .Write (msg ++ "\n")]

/-- The tunnel-established line `establishConnection` writes to the hijacked connection. -/
def connectionEstablished : Event :=
  .connWrite "HTTP/1.1 200 Connection Established\r\n\r\n"

/-- The method `entry.shouldHandle`. -/
def entry.shouldHandle (proxy : Proxy) (req : Request) : Bool :=
  match proxy.shouldIntercept with
  | none => true
  | some rule => rule req

/-- The method `entry.establishConnection`.  `connHijacked` marks that `Hijack` handed the
connection over. -/
def entry.establishConnection (env : Env) (fuel : Nat) (w : World) :
    List Event × Established :=
  if !env.Hijacker then ([.panic], .panic)
  else
    match env.HijackErr with
    | some _ => ([.Hijack, .WriteHeader 502], .err)
    | none =>
      match env.writeErr with
      | some _ =>
        ([.Hijack, .connHijacked, connectionEstablished] ++ (cconnClose fuel w).trace,
          Established.afterClose (cconnClose fuel w).ending)
      | none => ([.Hijack, .connHijacked, connectionEstablished], .ok)

/-- The method `entry.directTransfer`.  `connClose` is the `Close` of the upstream
connection. -/
def entry.directTransfer (env : Env) (fuel : Nat) (w : World) : Run :=
  Run.after [.call "directTransfer", .dial "proxy.getUpstreamConn"] <|
  match env.dialErr with
  | some _ => ⟨[.WriteHeader 502], .returned⟩
  | none =>
    -- defer conn.Close()
    match entry.establishConnection env fuel w with
    | (es, .ok) =>
      -- defer cconn.Close(); transfer(conn, cconn)
      Run.after (es ++ [.transfer]) ((cconnClose fuel w).andThen [.connClose])
    | (es, .err) => ⟨es ++ [.connClose], .returned⟩
    | (es, .panic) => ⟨es ++ [.connClose], .panicked⟩
    | (es, .blocked) => ⟨es, .blocked⟩
    | (es, .outOfFuel) => ⟨es, .outOfFuel⟩

/-- The method `entry.httpsDialFirstAttack`.  The upstream connection comes from
`attacker.httpsDial`, which is not among the sources; its `Close` is the event
`connClose`. -/
def entry.httpsDialFirstAttack (env : Env) (fuel : Nat) (w : World) : Run :=
  Run.after [.call "httpsDialFirstAttack", .dial "attacker.httpsDial"] <|
  match env.dialErr with
  | some _ => ⟨[.WriteHeader 502], .returned⟩
  | none =>
    match entry.establishConnection env fuel w with
    | (es, .err) => ⟨es ++ [.connClose], .returned⟩
    | (es, .panic) => ⟨es, .panicked⟩
    | (es, .blocked) => ⟨es, .blocked⟩
    | (es, .outOfFuel) => ⟨es, .outOfFuel⟩
    | (es, .ok) =>
      Run.after (es ++ [.Peek 3]) <|
      match env.peek with
      | .error _ => (cconnClose fuel w).andThen [.connClose]
      | .ok peek =>
        if !env.IsTls peek then
          Run.after [.transfer] ((cconnClose fuel w).andThen [.connClose])
        else ⟨[.setTls, .call "attacker.httpsTlsDial"], .returned⟩

/-- The method `entry.httpsDialLazyAttack`. -/
def entry.httpsDialLazyAttack (env : Env) (fuel : Nat) (w : World) : Run :=
  Run.after [.call "httpsDialLazyAttack"] <|
  match entry.establishConnection env fuel w with
  | (es, .err) => ⟨es, .returned⟩
  | (es, .panic) => ⟨es, .panicked⟩
  | (es, .blocked) => ⟨es, .blocked⟩
  | (es, .outOfFuel) => ⟨es, .outOfFuel⟩
  | (es, .ok) =>
    Run.after (es ++ [.Peek 3]) <|
    match env.peek with
    | .error _ => cconnClose fuel w
    | .ok peek =>
      if !env.IsTls peek then
        Run.after [.dial "attacker.httpsDial"] <|
        match env.dialErr with
        | some _ => cconnClose fuel w
        | none => Run.after [.transfer, .connClose] (cconnClose fuel w)
      else ⟨[.setTls, .call "attacker.httpsLazyAttack"], .returned⟩

/-- The method `entry.handleConnect`; `cconn` is `f.ConnContext.ClientConn` as the method
reads it, `w` the client/server pair when the hijacked connection is closed. -/
def entry.handleConnect (proxy : Proxy) (cconn : ClientConn) (env : Env) (fuel : Nat)
    (w : World) (req : Request) : Run :=
  let shouldIntercept := entry.shouldHandle proxy req
  -- defer f.finish()
  Run.deferred
    (Run.after [.call "handleConnect"]
      (if !shouldIntercept then entry.directTransfer env fuel w
       else if cconn.UpstreamCert then entry.httpsDialFirstAttack env fuel w
       else entry.httpsDialLazyAttack env fuel w))
    [.flowFinish]

/-- The function `getAddress`. -/
def getAddress (h : List Char) : List Char × List Char × List Char :=
  let (host, port) := helper.SplitHostPort h
  let port := if port = [] then "80".data else port
  (helper.JoinHostPort host port, host, port)

/-- The function `transferHttp`.  `connClose` is the `Close` of the connection `net.Dial`
returned. -/
def transferHttp (env : Env) (fuel : Nat) (w : World) (req : Request) : Run :=
  Run.after [.call "transferHttp"] <|
  if !env.Hijacker then ⟨httpError "Hijacking not supported" 500, .returned⟩
  else
    Run.after [.Hijack] <|
    match env.HijackErr with
    | some err => ⟨httpError err 500, .returned⟩
    | none =>
      -- defer clientConn.Close()
      Run.after [.connHijacked, .netDial (getAddress req.Host).1] <|
      match env.dialErr with
      | some _ =>
        Run.after (httpError "Error connecting to remote server" 500) (cconnClose fuel w)
      | none =>
        -- defer serverConn.Close()
        Run.after [.serverWrite] <|
        match env.writeErr with
        | some _ => Run.after [.connClose] (cconnClose fuel w)
        | none => Run.after [.transfer, .connClose] (cconnClose fuel w)

/-- The method `webSocket.wss`.  It is called from the attacker, which is not among the
sources, with the response writer of the server the attacker runs; what connection that
writer hands out on `Hijack` is decided there, and its `Close` is the event `cconnClose`. -/
def webSocket.wss (env : Env) (req : Request) : List Event :=
  [.call "wss"] ++
  match env.DumpRequestErr with
  | some _ => [.WriteHeader 502]
  | none =>
    if !env.Hijacker then [.panic]
    else
      [.Hijack] ++
      match env.HijackErr with
      | some _ => [.WriteHeader 502]
      | none =>
        let host := if !(req.Host.contains ':') then req.Host ++ ":443".data else req.Host
        [.connHijacked, .tlsDial host] ++
        match env.dialErr with
        | some _ => [.cconnClose]
        | none =>
          [.serverWrite] ++
          match env.writeErr with
          | some _ => [.connClose, .cconnClose]
          | none => [.transfer, .connClose, .cconnClose]

/-- Modelled from the spec: `helper.ResponseCheck` (package `internal/helper`, not among the
sources), whose `Wrote` flag records that a response was written through it: a status or a
body counts, touching the header map does not. -/
def WriterCall.wrote : WriterCall → Bool
  | .WriteHeader _ => true
  | .Write _ => true
  | .HeaderSet _ _ => false

/-- The loop `for _, addon := range proxy.Addons { addon.AccessProxyServer(req, res) }` of
`ServeHTTP`, with `res` the `ResponseCheck`; the flag is its `Wrote` field. -/
def accessProxyServerLoop (req : Request) : List Addon → Bool → List Event → Bool × List Event
  | [], wrote, trace => (wrote, trace)
  | addon :: rest, wrote, trace =>
    accessProxyServerLoop req rest
      (wrote || (addon.AccessProxyServer req).any WriterCall.wrote)
      (trace ++ [.AccessProxyServer addon.name] ++
        (addon.AccessProxyServer req).map (.addonWrite addon.name))

/-- The direct-access branch of `entry.ServeHTTP`. -/
def entry.directAccess (proxy : Proxy) (req : Request) : List Event :=
  let r := accessProxyServerLoop req proxy.Addons false [.call "helper.NewResponseCheck"]
  if !r.1 then r.2 ++ [.WriteHeader 400, .Write "此为代理服务器，不能直接发起请求"]
  else r.2

/-- The method `entry.ServeHTTP`; `cconn` is the `ClientConn` of the request's context, `w`
the client/server pair when the hijacked connection is closed. -/
def entry.ServeHTTP (proxy : Proxy) (cconn : ClientConn) (env : Env) (fuel : Nat)
    (w : World) (req : Request) : Run :=
  if req.Method == "CONNECT" then entry.handleConnect proxy cconn env fuel w req
  else if !req.URL.IsAbs || req.URL.Host == "" then ⟨entry.directAccess proxy req, .returned⟩
  else if !entry.shouldHandle proxy req then transferHttp env fuel w req
  else ⟨[.call "attacker.initHttpDialFn", .call "attacker.attack"], .returned⟩

/-- The status codes written to the response writer, in order. -/
def statusCodes : List Event → List Nat
  | [] => []
  | .WriteHeader code :: rest => code :: statusCodes rest
  | _ :: rest => statusCodes rest

/-- Recognises the `AccessProxyServer` hook calls in a trace. -/
def Event.isAccessProxyServer : Event → Bool
  | .AccessProxyServer _ => true
  | _ => false

/-- Recognises the `ClientConnected` hook calls in a trace. -/
def Event.isClientConnected : Event → Bool
  | .ClientConnected _ => true
  | _ => false

/-- Recognises an upstream dial. -/
def Event.isDial : Event → Bool
  | .dial _ => true
  | .netDial _ => true
  | .tlsDial _ => true
  | _ => false

/-- Recognises any addon hook call. -/
def Event.isHook : Event → Bool
  | .ClientConnected _ => true
  | .ClientDisconnected _ => true
  | .ServerDisconnected _ => true
  | .AccessProxyServer _ => true
  | .Request _ => true
  | .Response _ => true
  | _ => false

/-- What the direct-access loop leaves in the trace: for each addon in turn its
`AccessProxyServer` call followed by the writes that call makes. -/
def accessEvents (req : Request) : List Addon → List Event
  | [] => []
  | addon :: rest =>
    [.AccessProxyServer addon.name] ++
      (addon.AccessProxyServer req).map (.addonWrite addon.name) ++ accessEvents req rest

/-- Some addon wrote a status or a body when handed the response. -/
def someAddonWrote (req : Request) (addons : List Addon) : Bool :=
  addons.any (fun addon => (addon.AccessProxyServer req).any WriterCall.wrote)

/-- Recognises the writes of status and body on the response writer made by the entry code
itself (an addon's writes are `addonWrite` events). -/
def Event.isResponseWrite : Event → Bool
  | .WriteHeader _ => true
  | .Write _ => true
  | _ => false

/-- Recognises the flow hooks `Request` and `Response`. -/
def Event.isFlowHook : Event → Bool
  | .Request _ => true
  | .Response _ => true
  | _ => false

/-- Recognises the disconnect hooks `ClientDisconnected` and `ServerDisconnected`. -/
def Event.isDisconnectHook : Event → Bool
  | .ClientDisconnected _ => true
  | .ServerDisconnected _ => true
  | _ => false

/-- Recognises what the two `Close` methods of the wrappers can do. -/
def Event.isCloseEvent : Event → Bool
  | .ClientDisconnected _ => true
  | .ServerDisconnected _ => true
  | .enterClientClose => true
  | .enterServerClose => true
  | .clientTransportClose => true
  | .serverTransportClose => true
  | .closeChan => true
  | .clientCloseRead => true
  | .foreignConnClose => true
  | _ => false

/-- The status codes that reach the client.  Go `net/http`: once `Hijack` has handed the
connection over, the server does nothing more with it and drops what is written to the
response writer (`http.ErrHijacked`), so the codes that count are those written before. -/
def clientStatus (trace : List Event) : List Nat :=
  statusCodes (trace.takeWhile (fun e => e != .connHijacked))

/-- The events that precede the first upstream dial. -/
def beforeFirstDial (trace : List Event) : List Event :=
  trace.takeWhile (fun e => !e.isDial)

/-- The events from the first upstream dial on. -/
def fromFirstDial (trace : List Event) : List Event :=
  trace.dropWhile (fun e => !e.isDial)

/-- The answer a dial failure gets according to the specification: the client receives
status 502 and no other, or, on a response channel that has been hijacked, no status at all
and the client connection is closed; and no tunnel-established line is written after the
failed dial. -/
def DialFailureAnswer (trace : List Event) : Prop :=
  (clientStatus trace = [502] ∨
    (clientStatus trace = [] ∧ Event.connHijacked ∈ trace ∧
      Event.clientTransportClose ∈ trace)) ∧
    connectionEstablished ∉ fromFirstDial trace

instance (trace : List Event) : Decidable (DialFailureAnswer trace) := by
  unfold DialFailureAnswer
  infer_instance

/-- The answer a hijack failure gets according to the specification: status 500. -/
def HijackFailureAnswer (trace : List Event) : Prop := statusCodes trace = [500]

instance (trace : List Event) : Decidable (HijackFailureAnswer trace) := by
  unfold HijackFailureAnswer
  infer_instance

/-- What the specification says of a lazy tunnel whose first bytes are not TLS: exactly one
upstream dial, followed by the raw relay, and no `Request` or `Response` hook. -/
def LazyRawRelay (trace : List Event) : Prop :=
  (trace.filter Event.isDial).length = 1 ∧ Event.transfer ∈ fromFirstDial trace ∧
    trace.filter Event.isFlowHook = []

instance (trace : List Event) : Decidable (LazyRawRelay trace) := by
  unfold LazyRawRelay
  infer_instance

/-- Recognises an addon hook call other than the two disconnect hooks. -/
def Event.isOtherHook (e : Event) : Bool := e.isHook && !e.isDisconnectHook

/-- An addon with no-op hooks (the `BaseAddon`), under a given name. -/
def baseAddon (name : String) : Addon :=
  { name := name, ClientConnected := fun cconn => cconn, AccessProxyServer := fun _ => [] }

/-- A transport whose first `Close` succeeds and whose later ones report the closed
connection. -/
def freshTransport : Transport :=
  { isTCP := true
    closeCalls := 0
    closeResult := fun k => if k = 0 then none else some "use of closed network connection" }

/-- A client/server pair right after a TLS interception: both wrappers open, the client
marked `Tls`, `closeAfterResponse` unset, two addons registered. -/
def tlsPair : World :=
  { proxy := (NewProxy.AddAddon (baseAddon "A")).AddAddon (baseAddon "B")
    wcc := { closeMu := false, closed := false, closeErr := none }
    wsc := { closeMu := false, closed := false, closeErr := none }
    ClientConn := some { Conn := .wrapClientConn, Tls := true, UpstreamCert := false }
    ServerConn := true
    closeAfterResponse := false
    clientTransport := freshTransport
    serverTransport := freshTransport
    trace := [] }

/-- The same pair for a raw (non-TLS) tunnel. -/
def rawPair : World :=
  { tlsPair with
    ClientConn := some { Conn := .wrapClientConn, Tls := false, UpstreamCert := false } }

/-- A TLS record check in the manner of `helper.IsTls`: handshake record, version 3.x. -/
def exampleIsTls (buf : List Nat) : Bool :=
  buf.getD 0 0 == 0x16 && buf.getD 1 0 == 0x03 && decide (buf.getD 2 0 ≤ 0x03)

/-- An environment in which every operation succeeds and the client starts with `GET`. -/
def allGood : Env :=
  { Hijacker := true
    HijackErr := none
    dialErr := none
    writeErr := none
    peek := .ok [71, 69, 84]
    IsTls := exampleIsTls
    DumpRequestErr := none }

/-- The same environment with a failing upstream dial. -/
def dialFails : Env := { allGood with dialErr := some "connect: connection refused" }

/-- The same environment with a failing `Hijack`. -/
def hijackFails : Env := { allGood with HijackErr := some "http: connection has been hijacked" }

/-- A plain proxy request for an absolute URL. -/
def getExample : Request :=
  { Method := "GET", URL := { Scheme := "http", Host := "example.com" },
    Host := "example.com".data }

/-- A request sent to the proxy's own port. -/
def getDirect : Request :=
  { Method := "GET", URL := { Scheme := "", Host := "" }, Host := "localhost:9080".data }

/-- A CONNECT request. -/
def connectExample : Request :=
  { Method := "CONNECT", URL := { Scheme := "", Host := "example.com:443" },
    Host := "example.com:443".data }

/-- The two-addon registry of the examples. -/
def twoAddons : List Addon := [baseAddon "A", baseAddon "B"]

/-- A proxy with the two addons whose intercept rule declines every request. -/
def decliningProxy : Proxy :=
  (twoAddons.foldl Proxy.AddAddon NewProxy).SetShouldInterceptRule (fun _ => false)

/-- The pair of a freshly accepted client connection: no server connection yet. -/
def acceptedPair : World := { rawPair with ServerConn := false }

/-- A client connection in lazy mode, as the `RewriteHost` example sets it. -/
def lazyClient : ClientConn := { Conn := .wrapClientConn, Tls := false, UpstreamCert := false }

/-- A client connection in eager mode. -/
def eagerClient : ClientConn := { Conn := .wrapClientConn, Tls := false, UpstreamCert := true }

/-- The pair of a freshly accepted client connection served by `decliningProxy`. -/
def decliningPair : World := { acceptedPair with proxy := decliningProxy }

end proxy

namespace helper

/-- The first half of `SplitHostPort` finds a port: `host` has a last colon and what follows
it is made of decimal digits only. -/
def hasPortSuffix (host : List Char) : Bool :=
  match LastIndexByte host ':' with
  | some colon => validOptionalPort (host.drop colon)
  | none => false

/-- The test of the second half of `SplitHostPort`: `host` is enclosed in square brackets. -/
def isBracketed (host : List Char) : Bool := HasPrefix host ['['] && HasSuffix host [']']

/-- The table `splitHostPortSource` of the test file: input, expected host, expected port. -/
def splitHostPortSource : List (List Char × List Char × List Char) :=
  [ ("".data, "".data, "".data),
    (":".data, "".data, "".data),
    (":80".data, "".data, "80".data),
    ("clxu6".data, "clxu6".data, "".data),
    ("clxu6:80".data, "clxu6".data, "80".data),
    ("www.baidu.com".data, "www.baidu.com".data, "".data),
    ("www.baidu.com:443".data, "www.baidu.com".data, "443".data),
    ("[fe80::9d8e:cab8:a33a:2f30%10]".data, "fe80::9d8e:cab8:a33a:2f30%10".data, "".data),
    ("[fe80::9d8e:cab8:a33a:2f30%10]:443".data, "fe80::9d8e:cab8:a33a:2f30%10".data,
      "443".data) ]

end helper

namespace proxy

/-- The severities of the package `log`, from the lowest to the highest. -/
inductive Level where
  | Debug
  | Info
  | Warn
  | Error
  | Fatal
  deriving DecidableEq, Repr

/-- The rank of a severity: a higher rank is a higher severity. -/
def Level.rank : Level → Nat
  | .Debug => 0
  | .Info => 1
  | .Warn => 2
  | .Error => 3
  | .Fatal => 4

/-- Go `strings.Contains`. -/
def Contains : List Char → List Char → Bool
  | [], substr => substr.isEmpty
  | c :: s, substr => substr.isPrefixOf (c :: s) || Contains s substr

/-- The variable `normalErrMsgs`. -/
def normalErrMsgs : List (List Char) :=
  [ "read: connection reset by peer".data,
    "write: broken pipe".data,
    "i/o timeout".data,
    "net/http: TLS handshake timeout".data,
    "io: read/write on closed pipe".data,
    "connect: connection refused".data,
    "connect: connection reset by peer".data,
    "use of closed network connection".data ]

/-- The loop of `logErr` over the remaining benign messages, and the code after it: the
result `loged` and the log entries written. -/
def logErrLoop (msg : List Char) : List (List Char) → Bool × List (Level × List Char)
  | [] => (true, [(.Debug, msg)])
  | str :: rest =>
    if Contains msg str then (false, [(.Debug, msg)])
    else logErrLoop msg rest

/-- The function `logErr`, applied to the message of the error. -/
def logErr (msg : List Char) : Bool × List (Level × List Char) :=
  logErrLoop msg normalErrMsgs

/-- The message of the error contains one of the benign substrings. -/
def isNormalErr (msg : List Char) : Bool := normalErrMsgs.any (fun str => Contains msg str)

/-- A world like `rawPair` whose client transport is not a TCP connection (a listener handed
to `Serve` need not be a TCP listener). -/
def rawPairNoTCP : World :=
  { rawPair with clientTransport := { freshTransport with isTCP := false } }

/-- The pair of a TLS tunnel whose context is marked `closeAfterResponse`. -/
def tlsPairCloseAfterResponse : World := { tlsPair with closeAfterResponse := true }

/-- Recognises what `wrapServerConn.Close` does to the paired client: the call of
`CloseRead` reaching the transport, the call of `wrapClientConn.Close`, the `Close` of a
`ClientConn.Conn` that is not the wrapper. -/
def Event.isClientAction : Event → Bool
  | .clientCloseRead => true
  | .enterClientClose => true
  | .foreignConnClose => true
  | _ => false

end proxy

namespace helper

theorem LastIndexByte_eq_none {s : List Char} {c : Char} :
    LastIndexByte s c = none ↔ c ∉ s := by
  induction s with
  | nil => simp [LastIndexByte]
  | cons x xs ih =>
    simp only [LastIndexByte]
    cases h : LastIndexByte xs c with
    | none =>
      have hc := ih.mp h
      by_cases hx : x = c
      · simp [hx]
      · have hx2 : ¬ c = x := fun e => hx e.symm
        simp [hx, hx2, hc]
    | some i =>
      have hc : c ∈ xs := by
        by_contra hc
        rw [ih.mpr hc] at h
        cases h
      simp [hc]

theorem LastIndexByte_cons (x : Char) (xs : List Char) (c : Char) :
    LastIndexByte (x :: xs) c =
      match LastIndexByte xs c with
      | some i => some (i + 1)
      | none => if x = c then some 0 else none := rfl

theorem LastIndexByte_append (a b : List Char) (c : Char) :
    LastIndexByte (a ++ b) c =
      match LastIndexByte b c with
      | some i => some (a.length + i)
      | none => LastIndexByte a c := by
  induction a with
  | nil => cases h : LastIndexByte b c <;> simp [LastIndexByte, h]
  | cons x xs ih =>
    rw [List.cons_append, LastIndexByte_cons, LastIndexByte_cons, ih]
    cases h : LastIndexByte b c with
    | none => rfl
    | some i =>
      simp only [List.length_cons, Option.some.injEq]
      omega

theorem LastIndexByte_spec {s : List Char} {c : Char} {i : Nat}
    (h : LastIndexByte s c = some i) :
    ∃ a b, s = a ++ c :: b ∧ c ∉ b ∧ i = a.length := by
  induction s generalizing i with
  | nil => simp [LastIndexByte] at h
  | cons x xs ih =>
    simp only [LastIndexByte] at h
    cases hx : LastIndexByte xs c with
    | none =>
      rw [hx] at h
      by_cases hxc : x = c
      · simp [hxc] at h
        exact ⟨[], xs, by simp [hxc], LastIndexByte_eq_none.mp hx, by simp [← h]⟩
      · simp [hxc] at h
    | some j =>
      rw [hx] at h
      obtain ⟨a, b, hs, hb, hj⟩ := ih hx
      simp at h
      exact ⟨x :: a, b, by simp [hs], hb, by simp [← h, hj]⟩

theorem IndexByte_isSome {s : List Char} {c : Char} :
    (IndexByte s c).isSome = true ↔ c ∈ s := by
  induction s with
  | nil => simp [IndexByte]
  | cons x xs ih =>
    simp only [IndexByte]
    by_cases hx : x = c
    · simp [hx]
    · have hx2 : ¬ c = x := fun e => hx e.symm
      simp [hx, hx2, ← ih]

theorem validOptionalPort_colon (p : List Char) :
    validOptionalPort (':' :: p) = true ↔ ∀ c ∈ p, '0' ≤ c ∧ c ≤ '9' := by
  simp [validOptionalPort, List.all_eq_true, Char.not_lt]

theorem colon_not_mem_of_digits {p : List Char} (hp : ∀ c ∈ p, '0' ≤ c ∧ c ≤ '9') :
    ':' ∉ p := by
  intro h
  have := (hp _ h).2
  exact absurd this (by decide)

theorem SplitHostPort_append_port (H p : List Char) (hp : ∀ c ∈ p, '0' ≤ c ∧ c ≤ '9') :
    SplitHostPort (H ++ ':' :: p) = stripBrackets H p := by
  have hc : LastIndexByte (':' :: p) ':' = some 0 := by
    rw [LastIndexByte_cons, LastIndexByte_eq_none.mpr (colon_not_mem_of_digits hp)]
    rfl
  have hl : LastIndexByte (H ++ ':' :: p) ':' = some H.length := by
    rw [LastIndexByte_append, hc]
    rfl
  have hv : validOptionalPort (':' :: p) = true := (validOptionalPort_colon p).mpr hp
  simp [SplitHostPort, stripBrackets, hl, hv]

theorem SplitHostPort_no_port (s : List Char)
    (h : ∀ a b, s = a ++ ':' :: b → ':' ∉ b → validOptionalPort (':' :: b) = false) :
    SplitHostPort s = stripBrackets s [] := by
  cases hl : LastIndexByte s ':' with
  | none => simp [SplitHostPort, stripBrackets, hl]
  | some i =>
    obtain ⟨a, b, hs, hb, hi⟩ := LastIndexByte_spec hl
    have hv := h a b hs hb
    have hd : List.drop i s = ':' :: b := by
      rw [hs, hi]
      simp
    simp [SplitHostPort, stripBrackets, hl, hd, hv]

theorem stripBrackets_bracketed (h p : List Char) :
    stripBrackets ('[' :: h ++ [']']) p = (h, p) := by
  simp [stripBrackets, HasPrefix, HasSuffix, List.isSuffixOf]

theorem stripBrackets_of_not_mem (h p : List Char) (hh : '[' ∉ h) :
    stripBrackets h p = (h, p) := by
  cases h with
  | nil => simp [stripBrackets, HasPrefix, HasSuffix]
  | cons x xs =>
    have hx : ¬ '[' = x := fun e => hh (by rw [e]; exact List.mem_cons_self _ _)
    simp [stripBrackets, HasPrefix, hx]

/-- Splitting a joined address gives the two parts back when the host has no opening bracket
and the port is numeric. -/
theorem SplitHostPort_JoinHostPort_of_digits (host port : List Char)
    (hl : '[' ∉ host) (hp : ∀ c ∈ port, '0' ≤ c ∧ c ≤ '9') :
    SplitHostPort (JoinHostPort host port) = (host, port) := by
  by_cases hc : ':' ∈ host
  · have hi : (IndexByte host ':').isSome = true := IndexByte_isSome.mpr hc
    by_cases hpe : port = []
    · subst hpe
      have hj : JoinHostPort host [] = '[' :: host ++ [']'] := by
        simp [JoinHostPort, hi]
      rw [hj, SplitHostPort_no_port, stripBrackets_bracketed]
      intro a b hs hb
      have hlast : ('[' :: host ++ [']']).getLast? = some ']' := List.getLast?_concat _
      have hne : b ≠ [] := by
        rintro rfl
        rw [hs, List.getLast?_concat] at hlast
        exact absurd hlast (by decide)
      have hmem : ']' ∈ b := by
        rw [hs, List.append_cons, List.getLast?_append_of_ne_nil _ hne] at hlast
        exact List.mem_of_getLast?_eq_some hlast
      cases hv : validOptionalPort (':' :: b) with
      | false => rfl
      | true =>
        have := ((validOptionalPort_colon b).mp hv _ hmem).2
        exact absurd this (by decide)
    · have hj : JoinHostPort host port = ('[' :: host ++ [']']) ++ ':' :: port := by
        simp [JoinHostPort, hi, hpe]
      rw [hj, SplitHostPort_append_port _ _ hp, stripBrackets_bracketed]
  · have hi : (IndexByte host ':').isSome = false := by
      cases h : (IndexByte host ':').isSome with
      | false => rfl
      | true => exact absurd (IndexByte_isSome.mp h) hc
    by_cases hpe : port = []
    · subst hpe
      have hj : JoinHostPort host [] = host := by simp [JoinHostPort, hi]
      rw [hj, SplitHostPort_no_port, stripBrackets_of_not_mem _ _ hl]
      intro a b hs _
      exact absurd (by rw [hs]; simp) hc
    · have hj : JoinHostPort host port = host ++ ':' :: port := by
        simp [JoinHostPort, hi, hpe]
      rw [hj, SplitHostPort_append_port _ _ hp, stripBrackets_of_not_mem _ _ hl]

/-- C9 (as stated, refuted).  With host `a` and port `x`, neither of which contains a
bracket, joining, splitting and joining again gives `[a:x]`, not `a:x`. -/
theorem join_split_join_counterexample :
    '[' ∉ "a".data ∧ ']' ∉ "a".data ∧ '[' ∉ "x".data ∧ ']' ∉ "x".data ∧
    JoinHostPort (SplitHostPort (JoinHostPort "a".data "x".data)).1
        (SplitHostPort (JoinHostPort "a".data "x".data)).2 = "[a:x]".data ∧
    JoinHostPort (SplitHostPort (JoinHostPort "a".data "x".data)).1
        (SplitHostPort (JoinHostPort "a".data "x".data)).2 ≠ JoinHostPort "a".data "x".data := by
  decide

/-- C10.  `SplitHostPort` undoes `JoinHostPort`: for every host containing neither bracket
(colons allowed) and every port made of decimal digits only (possibly empty), splitting the
joined address returns the host and the port; in particular the bracketed IPv6 literal with
port 443 of the test table splits into its host and `443`. -/
theorem SplitHostPort_undoes_JoinHostPort (host port : List Char)
    (hl : '[' ∉ host) (_hr : ']' ∉ host) (hp : ∀ c ∈ port, '0' ≤ c ∧ c ≤ '9') :
    SplitHostPort (JoinHostPort host port) = (host, port) ∧
    SplitHostPort "[fe80::9d8e:cab8:a33a:2f30%10]:443".data =
      ("fe80::9d8e:cab8:a33a:2f30%10".data, "443".data) :=
  ⟨SplitHostPort_JoinHostPort_of_digits host port hl hp, by decide⟩

theorem SplitHostPort_undoes_JoinHostPort_witness :
    '[' ∉ "fe80::9d8e:cab8:a33a:2f30%10".data ∧ ']' ∉ "fe80::9d8e:cab8:a33a:2f30%10".data ∧
    (∀ c ∈ "443".data, '0' ≤ c ∧ c ≤ '9') ∧
    JoinHostPort "fe80::9d8e:cab8:a33a:2f30%10".data "443".data =
      "[fe80::9d8e:cab8:a33a:2f30%10]:443".data ∧
    SplitHostPort (JoinHostPort "fe80::9d8e:cab8:a33a:2f30%10".data "443".data) =
      ("fe80::9d8e:cab8:a33a:2f30%10".data, "443".data) :=
  ⟨by decide, by decide, by decide, by decide,
    (SplitHostPort_undoes_JoinHostPort "fe80::9d8e:cab8:a33a:2f30%10".data "443".data
      (by decide) (by decide) (by decide)).1⟩

theorem stripBrackets_snd (host port : List Char) : (stripBrackets host port).2 = port := by
  unfold stripBrackets
  split <;> rfl

theorem stripBrackets_fst_length_le (host port : List Char) :
    (stripBrackets host port).1.length ≤ host.length := by
  unfold stripBrackets
  split
  · simp only [List.length_drop, List.length_take]
    omega
  · exact Nat.le_refl _

theorem SplitHostPort_eq_stripBrackets (s : List Char) :
    SplitHostPort s =
      match LastIndexByte s ':' with
      | some colon =>
        if validOptionalPort (s.drop colon) then
          stripBrackets (s.take colon) (s.drop (colon + 1))
        else stripBrackets s []
      | none => stripBrackets s [] := by
  cases hl : LastIndexByte s ':' with
  | none => simp [SplitHostPort, stripBrackets, hl]
  | some i =>
    cases hv : validOptionalPort (s.drop i) <;>
      simp [SplitHostPort, stripBrackets, hl, hv]

/-- The position of the last colon determines the split. -/
theorem LastIndexByte_of_split (a b : List Char) (hb : ':' ∉ b) :
    LastIndexByte (a ++ ':' :: b) ':' = some a.length := by
  have hc : LastIndexByte (':' :: b) ':' = some 0 := by
    rw [LastIndexByte_cons, LastIndexByte_eq_none.mpr hb]
    rfl
  rw [LastIndexByte_append, hc]
  rfl

/-- C12.  For every input the port returned by `SplitHostPort` is made of decimal digits
only (possibly none); it is non-empty only when the input ends with a colon followed by that
port; and it is empty when the text after the last colon contains a non-digit and when the
input has no colon. -/
theorem SplitHostPort_port_numeric (s : List Char) :
    (∀ c ∈ (SplitHostPort s).2, '0' ≤ c ∧ c ≤ '9') ∧
    ((SplitHostPort s).2 ≠ [] →
      ∃ a, s = a ++ ':' :: (SplitHostPort s).2 ∧ ':' ∉ (SplitHostPort s).2) ∧
    (∀ a b, s = a ++ ':' :: b → ':' ∉ b → (∃ c ∈ b, ¬ ('0' ≤ c ∧ c ≤ '9')) →
      (SplitHostPort s).2 = []) ∧
    (':' ∉ s → (SplitHostPort s).2 = []) := by
  have key := SplitHostPort_eq_stripBrackets s
  refine ⟨?_, ?_, ?_, ?_⟩
  · cases hl : LastIndexByte s ':' with
    | none =>
      rw [key, hl]
      simp [stripBrackets_snd]
    | some i =>
      obtain ⟨a, b, hs, hb, hi⟩ := LastIndexByte_spec hl
      have hd : s.drop i = ':' :: b := by rw [hs, hi]; simp
      have hd1 : s.drop (i + 1) = b := by rw [hs, hi]; simp
      rw [key, hl]
      simp only [hd, hd1]
      cases hv : validOptionalPort (':' :: b) with
      | false => simp [stripBrackets_snd]
      | true =>
        simp only [if_true, stripBrackets_snd]
        exact (validOptionalPort_colon b).mp hv
  · intro hne
    cases hl : LastIndexByte s ':' with
    | none =>
      rw [key, hl] at hne
      simp [stripBrackets_snd] at hne
    | some i =>
      obtain ⟨a, b, hs, hb, hi⟩ := LastIndexByte_spec hl
      have hd : s.drop i = ':' :: b := by rw [hs, hi]; simp
      have hd1 : s.drop (i + 1) = b := by rw [hs, hi]; simp
      rw [key, hl] at hne ⊢
      simp only [hd, hd1] at hne ⊢
      cases hv : validOptionalPort (':' :: b) with
      | false =>
        rw [hv] at hne
        simp [stripBrackets_snd] at hne
      | true =>
        simp only [if_true, stripBrackets_snd]
        exact ⟨a, hs, hb⟩
  · intro a b hs hb hnd
    have hl := LastIndexByte_of_split a b hb
    rw [← hs] at hl
    have hd : s.drop a.length = ':' :: b := by rw [hs]; simp
    have hv : validOptionalPort (':' :: b) = false := by
      cases hv : validOptionalPort (':' :: b) with
      | false => rfl
      | true =>
        obtain ⟨c, hc, hcn⟩ := hnd
        exact absurd ((validOptionalPort_colon b).mp hv c hc) hcn
    rw [key, hl]
    simp [hd, hv, stripBrackets_snd]
  · intro hn
    rw [key, LastIndexByte_eq_none.mpr hn]
    simp [stripBrackets_snd]

/-- C11 (as stated, refuted).  The address `[::1]:443` splits into host `::1` and port
`443`, and splitting that host again gives host `:` and port `1`. -/
theorem SplitHostPort_host_not_fixed_counterexample :
    SplitHostPort "[::1]:443".data = ("::1".data, "443".data) ∧
    SplitHostPort "::1".data = (":".data, "1".data) ∧
    ¬ (SplitHostPort (SplitHostPort "[::1]:443".data).1 =
        ((SplitHostPort "[::1]:443".data).1, [])) := by
  decide

/-- C11 (amended).  The host `h` returned by `SplitHostPort` is a fixed point of
`SplitHostPort` (splitting it gives `h` and the empty port) exactly when `h` does not end
with a colon followed by decimal digits only and is not enclosed in square brackets; every
row of the test table is of that kind. -/
theorem SplitHostPort_host_fixed_iff (s : List Char) :
    (SplitHostPort (SplitHostPort s).1 = ((SplitHostPort s).1, []) ↔
      (hasPortSuffix (SplitHostPort s).1 = false ∧ isBracketed (SplitHostPort s).1 = false)) ∧
    (∀ row ∈ splitHostPortSource,
      SplitHostPort row.1 = (row.2.1, row.2.2) ∧ SplitHostPort row.2.1 = (row.2.1, [])) := by
  refine ⟨?_, by decide⟩
  generalize (SplitHostPort s).1 = h
  have key := SplitHostPort_eq_stripBrackets h
  constructor
  · intro hfix
    have hlen : (SplitHostPort h).1.length = h.length := by rw [hfix]
    cases hl : LastIndexByte h ':' with
    | some i =>
      obtain ⟨a, b, hs, hb, hi⟩ := LastIndexByte_spec hl
      cases hv : validOptionalPort (h.drop i) with
      | true =>
        exfalso
        rw [key, hl] at hlen
        simp only [hv, if_true] at hlen
        have h1 := stripBrackets_fst_length_le (h.take i) (h.drop (i + 1))
        have h2 : (h.take i).length = i := by
          rw [List.length_take, hs, hi]
          simp
        have h3 : h.length = i + 1 + b.length := by rw [hs, hi]; simp; omega
        omega
      | false =>
        refine ⟨by simp [hasPortSuffix, hl, hv], ?_⟩
        rw [key, hl] at hfix
        simp only [hv, Bool.false_eq_true, if_false] at hfix
        cases hb2 : isBracketed h with
        | false => rfl
        | true =>
          exfalso
          have hne : h ≠ [] := by rw [hs]; simp
          have := congrArg (fun p => p.1.length) hfix
          simp only [stripBrackets, isBracketed] at this hb2
          rw [hb2] at this
          simp only [if_true, List.length_drop, List.length_take] at this
          have : 0 < h.length := List.length_pos.mpr hne
          omega
    | none =>
      refine ⟨by simp [hasPortSuffix, hl], ?_⟩
      rw [key, hl] at hfix
      cases hb2 : isBracketed h with
      | false => rfl
      | true =>
        exfalso
        have hne : h ≠ [] := by
          rintro rfl
          simp [isBracketed, HasPrefix] at hb2
        have := congrArg (fun p => p.1.length) hfix
        simp only [stripBrackets, isBracketed] at this hb2
        rw [hb2] at this
        simp only [if_true, List.length_drop, List.length_take] at this
        have : 0 < h.length := List.length_pos.mpr hne
        omega
  · rintro ⟨hp, hb⟩
    have hstrip : stripBrackets h [] = (h, []) := by
      simp only [isBracketed] at hb
      simp [stripBrackets, hb]
    rw [key]
    cases hl : LastIndexByte h ':' with
    | none => exact hstrip
    | some i =>
      simp only [hasPortSuffix, hl] at hp
      simp only [hp]
      exact hstrip

theorem HasSuffix_bracket_false (y z : List Char) (hz : z ≠ []) (h : ']' ∉ z) :
    HasSuffix (y ++ z) [']'] = false := by
  have hr : z.reverse ≠ [] := by simpa using hz
  obtain ⟨c, t, hct⟩ := List.exists_cons_of_ne_nil hr
  have hc : c ∈ z := by
    have : c ∈ z.reverse := by rw [hct]; exact List.mem_cons_self _ _
    simpa using this
  have hne : ¬ ']' = c := fun e => h (e ▸ hc)
  simp [HasSuffix, List.isSuffixOf, List.reverse_append, hct, List.isPrefixOf, hne]

theorem stripBrackets_of_no_suffix (x p : List Char) (h : HasSuffix x [']'] = false) :
    stripBrackets x p = (x, p) := by
  simp [stripBrackets, h]

theorem length_JoinHostPort_of_colon (h p : List Char) (hc : ':' ∈ h) :
    (JoinHostPort h p).length = h.length + 2 + (if p = [] then 0 else 1 + p.length) := by
  have hi : (IndexByte h ':').isSome = true := IndexByte_isSome.mpr hc
  by_cases hp : p = []
  · simp [JoinHostPort, hi, hp]
  · simp [JoinHostPort, hi, hp]
    omega

/-- With a port that is not numeric the round trip adds a pair of brackets. -/
theorem join_split_join_ne_of_non_numeric (host port : List Char)
    (pr : ']' ∉ port) (hnd : ¬ ∀ c ∈ port, '0' ≤ c ∧ c ≤ '9') :
    JoinHostPort (SplitHostPort (JoinHostPort host port)).1
        (SplitHostPort (JoinHostPort host port)).2 ≠ JoinHostPort host port := by
  have hpne : port ≠ [] := by
    rintro rfl
    exact hnd (by simp)
  obtain ⟨H, hJ⟩ : ∃ H, JoinHostPort host port = H ++ ':' :: port := by
    by_cases hc : (IndexByte host ':').isSome = true
    · exact ⟨'[' :: host ++ [']'], by simp [JoinHostPort, hc, hpne]⟩
    · exact ⟨host, by simp [JoinHostPort, hc, hpne]⟩
  intro heq
  have hlen := congrArg List.length heq
  rw [hJ, SplitHostPort_eq_stripBrackets] at hlen
  cases hlp : LastIndexByte port ':' with
  | none =>
    have hb := LastIndexByte_eq_none.mp hlp
    have hl := LastIndexByte_of_split H port hb
    have hv : validOptionalPort (':' :: port) = false := by
      cases hv : validOptionalPort (':' :: port) with
      | false => rfl
      | true => exact absurd ((validOptionalPort_colon port).mp hv) hnd
    have hd : (H ++ ':' :: port).drop H.length = ':' :: port := by simp
    have hsuf : HasSuffix (H ++ ':' :: port) [']'] = false := by
      have := HasSuffix_bracket_false (H ++ [':']) port hpne pr
      simpa using this
    rw [hl] at hlen
    simp only [hd, hv, Bool.false_eq_true, if_false] at hlen
    rw [stripBrackets_of_no_suffix _ _ hsuf] at hlen
    rw [length_JoinHostPort_of_colon _ _ (by simp)] at hlen
    simp at hlen
  | some k =>
    obtain ⟨q, b, hs, hb, _⟩ := LastIndexByte_spec hlp
    have hplen : port.length = q.length + 1 + b.length := by rw [hs]; simp; omega
    have hsufJ : HasSuffix (H ++ ':' :: port) [']'] = false := by
      have := HasSuffix_bracket_false (H ++ [':']) port hpne pr
      simpa using this
    have hsufX : HasSuffix (H ++ ':' :: q) [']'] = false := by
      have hq : ']' ∉ ':' :: q := by
        intro hm
        rcases List.mem_cons.mp hm with h1 | h1
        · exact absurd h1 (by decide)
        · exact pr (by rw [hs]; simp [h1])
      exact HasSuffix_bracket_false H (':' :: q) (by simp) hq
    have hXlen : (H ++ ':' :: port).length = (H ++ ':' :: q).length + 1 + b.length := by
      simp [hplen]; omega
    have hXc : ':' ∈ H ++ ':' :: q := by simp
    have hJc : ':' ∈ H ++ ':' :: port := by simp
    have hJ2 : H ++ ':' :: port = (H ++ ':' :: q) ++ ':' :: b := by rw [hs]; simp
    generalize H ++ ':' :: q = X at hJ2 hsufX hXlen hXc
    generalize H ++ ':' :: port = J at hlen hsufJ hXlen hJ2 hJc
    subst hJ2
    have hl := LastIndexByte_of_split X b hb
    have hd : (X ++ ':' :: b).drop X.length = ':' :: b := by simp
    have hd1 : (X ++ ':' :: b).drop (X.length + 1) = b := by
      rw [List.append_cons, show X.length + 1 = (X ++ [':']).length by simp]
      exact List.drop_left _ _
    have ht : (X ++ ':' :: b).take X.length = X := by simp
    rw [hl] at hlen
    simp only [hd, hd1, ht] at hlen
    cases hv : validOptionalPort (':' :: b) with
    | true =>
      rw [hv] at hlen
      simp only [if_true] at hlen
      rw [stripBrackets_of_no_suffix _ _ hsufX, length_JoinHostPort_of_colon _ _ hXc] at hlen
      by_cases hbe : b = []
      · simp [hbe] at hlen
      · simp [hbe] at hlen
        omega
    | false =>
      rw [hv] at hlen
      simp only [Bool.false_eq_true, if_false] at hlen
      rw [stripBrackets_of_no_suffix _ _ hsufJ, length_JoinHostPort_of_colon _ _ hJc] at hlen
      simp at hlen

/-- C9 (amended).  For every host and port without bracket characters, joining the result
of splitting the joined address gives the joined address back if and only if the port is
made of decimal digits only (possibly empty). -/
theorem join_split_join_iff_numeric_port (host port : List Char)
    (hl : '[' ∉ host) (_hr : ']' ∉ host) (_pl : '[' ∉ port) (pr : ']' ∉ port) :
    JoinHostPort (SplitHostPort (JoinHostPort host port)).1
        (SplitHostPort (JoinHostPort host port)).2 = JoinHostPort host port ↔
      ∀ c ∈ port, '0' ≤ c ∧ c ≤ '9' := by
  constructor
  · intro heq
    by_contra hnd
    exact join_split_join_ne_of_non_numeric host port pr hnd heq
  · intro hp
    rw [SplitHostPort_JoinHostPort_of_digits host port hl hp]

theorem join_split_join_iff_numeric_port_witness :
    '[' ∉ "fe80::1".data ∧ ']' ∉ "fe80::1".data ∧ '[' ∉ "8080".data ∧ ']' ∉ "8080".data ∧
    (∀ c ∈ "8080".data, '0' ≤ c ∧ c ≤ '9') ∧
    JoinHostPort (SplitHostPort (JoinHostPort "fe80::1".data "8080".data)).1
        (SplitHostPort (JoinHostPort "fe80::1".data "8080".data)).2
      = JoinHostPort "fe80::1".data "8080".data :=
  ⟨by decide, by decide, by decide, by decide, by decide,
    (join_split_join_iff_numeric_port "fe80::1".data "8080".data (by decide) (by decide)
      (by decide) (by decide)).mpr (by decide)⟩

end helper

namespace proxy

theorem dispatch_eq (hook : String → Event) (addons : List Addon) (trace : List Event) :
    dispatch hook addons trace = trace ++ addons.map (fun addon => hook addon.name) := by
  induction addons generalizing trace with
  | nil => simp [dispatch]
  | cons a rest ih => simp [dispatch, ih]

/-- A `Close` on a client wrapper that is already closed only reads the stored error. -/
theorem wrapClientConn_Close_closed (fuel : Nat) (w : World)
    (hmu : w.wcc.closeMu = false) (hcl : w.wcc.closed = true) :
    wrapClientConn.Close (fuel + 1) w =
      .returned w.wcc.closeErr
        { w with trace := w.trace ++ [.enterClientClose] } := by
  obtain ⟨p, ⟨mu, cl, ce⟩, wsc, cc, sc, car, ct, st, tr⟩ := w
  simp only at hmu hcl
  subst hmu hcl
  simp [wrapClientConn.Close, World.emit, World.unlockClient]

theorem wrapServerConn_Close_closed (fuel : Nat) (w : World)
    (hmu : w.wsc.closeMu = false) (hcl : w.wsc.closed = true) :
    wrapServerConn.Close (fuel + 1) w =
      .returned w.wsc.closeErr
        { w with trace := w.trace ++ [.enterServerClose] } := by
  obtain ⟨p, wcc, ⟨mu, cl, ce⟩, cc, sc, car, ct, st, tr⟩ := w
  simp only at hmu hcl
  subst hmu hcl
  simp [wrapServerConn.Close, World.emit, World.unlockServer]

/-- Every event a `Close` adds to the trace is one of the lifecycle events: a property that
holds of the trace so far and of all lifecycle events holds of the trace of the call. -/
theorem Close_trace_all (P : Event → Prop) (hP : ∀ e, e.isCloseEvent = true → P e) :
    ∀ (fuel : Nat) (w : World), (∀ e ∈ w.trace, P e) →
      (∀ e ∈ (wrapClientConn.Close fuel w).trace, P e) ∧
      (∀ e ∈ (wrapServerConn.Close fuel w).trace, P e) := by
  have hCD : ∀ addons : List Addon,
      ∀ e ∈ addons.map (fun addon => Event.ClientDisconnected addon.name), P e := by
    intro addons e he
    obtain ⟨a, _, rfl⟩ := List.mem_map.mp he
    exact hP _ rfl
  have hSD : ∀ addons : List Addon,
      ∀ e ∈ addons.map (fun addon => Event.ServerDisconnected addon.name), P e := by
    intro addons e he
    obtain ⟨a, _, rfl⟩ := List.mem_map.mp he
    exact hP _ rfl
  intro fuel
  induction fuel with
  | zero =>
    intro w _
    constructor <;> intro e he <;> simp [wrapClientConn.Close, wrapServerConn.Close,
      Outcome.trace] at he
  | succ n ih =>
    intro w hw
    constructor
    · rw [wrapClientConn.Close]
      simp only [World.emit, dispatch_eq]
      by_cases h1 : w.wcc.closeMu = true
      · simp only [h1, if_true, Outcome.trace]
        intro e he
        rcases List.mem_append.mp he with h | h
        · exact hw e h
        · simp at h; subst h; exact hP _ rfl
      · simp only [h1, Bool.false_eq_true, if_false]
        by_cases h2 : w.wcc.closed = true
        · simp only [h2, if_true, Outcome.trace, World.unlockClient]
          intro e he
          rcases List.mem_append.mp he with h | h
          · exact hw e h
          · simp at h; subst h; exact hP _ rfl
        · simp only [h2, Bool.false_eq_true, if_false]
          have hW : ∀ e ∈ w.trace ++ [Event.enterClientClose] ++
              [Event.clientTransportClose, Event.closeChan] ++
              w.proxy.Addons.map (fun addon => Event.ClientDisconnected addon.name),
              P e := by
            intro e he
            simp only [List.mem_append, List.mem_cons, List.mem_singleton,
              List.not_mem_nil, or_false] at he
            rcases he with ((h | h) | h) | h
            · exact hw e h
            · subst h; exact hP _ rfl
            · rcases h with h | h <;> (subst h; exact hP _ rfl)
            · exact hCD _ e (by simpa using h)
          by_cases h3 : w.ServerConn = true
          · simp only [h3, if_true]
            have key : ∀ W : World, (∀ e ∈ W.trace, P e) →
                ∀ e ∈ (match wrapServerConn.Close n W with
                  | .returned _ w => Outcome.returned w.wcc.closeErr w.unlockClient
                  | .blocked w => Outcome.blocked w
                  | .outOfFuel => Outcome.outOfFuel).trace, P e := by
              intro W hWt
              have ihs := (ih W hWt).2
              cases h : wrapServerConn.Close n W with
              | returned err w1 => rw [h] at ihs; exact ihs
              | blocked w1 => rw [h] at ihs; exact ihs
              | outOfFuel => rw [h] at ihs; exact ihs
            refine key _ ?_
            exact hW
          · simp only [h3, Bool.false_eq_true, if_false, Outcome.trace, World.unlockClient]
            exact hW
    · rw [wrapServerConn.Close]
      simp only [World.emit, dispatch_eq]
      by_cases h1 : w.wsc.closeMu = true
      · simp only [h1, if_true, Outcome.trace]
        intro e he
        rcases List.mem_append.mp he with h | h
        · exact hw e h
        · simp at h; subst h; exact hP _ rfl
      · simp only [h1, Bool.false_eq_true, if_false]
        by_cases h2 : w.wsc.closed = true
        · simp only [h2, if_true, Outcome.trace, World.unlockServer]
          intro e he
          rcases List.mem_append.mp he with h | h
          · exact hw e h
          · simp at h; subst h; exact hP _ rfl
        · simp only [h2, Bool.false_eq_true, if_false]
          have hW : ∀ e ∈ w.trace ++ [Event.enterServerClose] ++
              [Event.serverTransportClose] ++
              w.proxy.Addons.map (fun addon => Event.ServerDisconnected addon.name),
              P e := by
            intro e he
            simp only [List.mem_append, List.mem_cons, List.mem_singleton,
              List.not_mem_nil, or_false] at he
            rcases he with ((h | h) | h) | h
            · exact hw e h
            · subst h; exact hP _ rfl
            · subst h; exact hP _ rfl
            · exact hSD _ e (by simpa using h)
          cases hc : w.ClientConn with
          | none =>
            simp only [Outcome.trace, World.unlockServer]
            exact hW
          | some cconn =>
            simp only
            by_cases ht : cconn.Tls = true
            · simp only [ht, Bool.not_true, Bool.false_eq_true, if_false]
              by_cases hcar : w.closeAfterResponse = true
              · simp only [hcar, Bool.not_true, Bool.false_eq_true, if_false, Outcome.trace,
                  World.unlockServer]
                exact hW
              · simp only [hcar, Bool.not_false, if_true]
                cases hconn : cconn.Conn with
                | wrapClientConn =>
                  simp only
                  have key : ∀ W : World, (∀ e ∈ W.trace, P e) →
                      ∀ e ∈ (match wrapClientConn.Close n W with
                        | .returned _ w => Outcome.returned w.wsc.closeErr w.unlockServer
                        | .blocked w => Outcome.blocked w
                        | .outOfFuel => Outcome.outOfFuel).trace, P e := by
                    intro W hWt
                    have ihs := (ih W hWt).1
                    cases h : wrapClientConn.Close n W with
                    | returned err w1 => rw [h] at ihs; exact ihs
                    | blocked w1 => rw [h] at ihs; exact ihs
                    | outOfFuel => rw [h] at ihs; exact ihs
                  refine key _ ?_
                  exact hW
                | foreign =>
                  simp only [Outcome.trace, World.unlockServer]
                  intro e he
                  rcases List.mem_append.mp he with h | h
                  · exact hW e h
                  · simp at h; subst h; exact hP _ rfl
            · simp only [ht, Bool.not_false, if_true]
              cases hconn : cconn.Conn with
              | wrapClientConn =>
                simp only [wrapClientConn.CloseRead, World.emit]
                by_cases htcp : w.clientTransport.isTCP = true
                · simp only [htcp, if_true, Outcome.trace, World.unlockServer]
                  intro e he
                  rcases List.mem_append.mp he with h | h
                  · exact hW e h
                  · simp at h; subst h; exact hP _ rfl
                · simp only [htcp, Bool.false_eq_true, if_false, Outcome.trace,
                    World.unlockServer]
                  exact hW
              | foreign =>
                simp only [Outcome.trace, World.unlockServer]
                exact hW

/-- A property of all lifecycle events holds of everything `cconn.Close()` does. -/
theorem cconnClose_all (P : Event → Prop) (hP : ∀ e, e.isCloseEvent = true → P e)
    (fuel : Nat) (w : World) : ∀ e ∈ (cconnClose fuel w).trace, P e := by
  have h := (Close_trace_all P hP fuel { w with trace := [] } (by simp)).1
  unfold cconnClose
  cases ho : wrapClientConn.Close fuel { w with trace := [] } with
  | returned err w1 => rw [ho] at h; exact h
  | blocked w1 => rw [ho] at h; exact h
  | outOfFuel => simp

/-- A test that fails on all lifecycle events finds nothing in what `cconn.Close()` does. -/
theorem cconnClose_filter (p : Event → Bool) (hp : ∀ e, e.isCloseEvent = true → p e = false)
    (fuel : Nat) (w : World) : (cconnClose fuel w).trace.filter p = [] := by
  rw [List.filter_eq_nil_iff]
  intro e he
  have := cconnClose_all (fun e => p e = false) hp fuel w e he
  simp [this]

theorem isDial_of_closeEvent (e : Event) (h : e.isCloseEvent = true) : e.isDial = false := by
  cases e <;> simp_all [Event.isCloseEvent, Event.isDial]

theorem isFlowHook_of_closeEvent (e : Event) (h : e.isCloseEvent = true) :
    e.isFlowHook = false := by
  cases e <;> simp_all [Event.isCloseEvent, Event.isFlowHook]

theorem isOtherHook_of_closeEvent (e : Event) (h : e.isCloseEvent = true) :
    e.isOtherHook = false := by
  cases e <;> simp_all [Event.isCloseEvent, Event.isOtherHook, Event.isHook,
    Event.isDisconnectHook]

theorem connectionEstablished_not_mem_cconnClose (fuel : Nat) (w : World) :
    connectionEstablished ∉ (cconnClose fuel w).trace := by
  intro h
  have := cconnClose_all (fun e => e ≠ connectionEstablished)
    (by intro e he; cases e <;> simp_all [Event.isCloseEvent, connectionEstablished])
    fuel w _ h
  exact this rfl

theorem transfer_not_mem_cconnClose (fuel : Nat) (w : World) :
    Event.transfer ∉ (cconnClose fuel w).trace := by
  intro h
  have := cconnClose_all (fun e => e ≠ Event.transfer)
    (by intro e he; cases e <;> simp_all [Event.isCloseEvent])
    fuel w _ h
  exact this rfl

theorem filter_isCD_map_CD (addons : List Addon) :
    (addons.map (fun addon => Event.ClientDisconnected addon.name)).filter
      Event.isClientDisconnected
      = addons.map (fun addon => Event.ClientDisconnected addon.name) := by
  induction addons with
  | nil => rfl
  | cons a rest ih => simp [List.filter, Event.isClientDisconnected, ih]

theorem filter_isCD_map_SD (addons : List Addon) :
    (addons.map (fun addon => Event.ServerDisconnected addon.name)).filter
      Event.isClientDisconnected = [] := by
  induction addons with
  | nil => rfl
  | cons a rest ih => simp [List.filter, Event.isClientDisconnected, ih]

theorem filter_isSD_map_SD (addons : List Addon) :
    (addons.map (fun addon => Event.ServerDisconnected addon.name)).filter
      Event.isServerDisconnected
      = addons.map (fun addon => Event.ServerDisconnected addon.name) := by
  induction addons with
  | nil => rfl
  | cons a rest ih => simp [List.filter, Event.isServerDisconnected, ih]

theorem filter_isSD_map_CD (addons : List Addon) :
    (addons.map (fun addon => Event.ClientDisconnected addon.name)).filter
      Event.isServerDisconnected = [] := by
  induction addons with
  | nil => rfl
  | cons a rest ih => simp [List.filter, Event.isServerDisconnected, ih]

theorem count_ctc_map_CD (addons : List Addon) :
    (addons.map (fun addon => Event.ClientDisconnected addon.name)).count
      Event.clientTransportClose = 0 := by
  induction addons with
  | nil => rfl
  | cons a rest ih => simp [List.count_cons, ih]

theorem count_ctc_map_SD (addons : List Addon) :
    (addons.map (fun addon => Event.ServerDisconnected addon.name)).count
      Event.clientTransportClose = 0 := by
  induction addons with
  | nil => rfl
  | cons a rest ih => simp [List.count_cons, ih]

theorem count_stc_map_CD (addons : List Addon) :
    (addons.map (fun addon => Event.ClientDisconnected addon.name)).count
      Event.serverTransportClose = 0 := by
  induction addons with
  | nil => rfl
  | cons a rest ih => simp [List.count_cons, ih]

theorem count_stc_map_SD (addons : List Addon) :
    (addons.map (fun addon => Event.ServerDisconnected addon.name)).count
      Event.serverTransportClose = 0 := by
  induction addons with
  | nil => rfl
  | cons a rest ih => simp [List.count_cons, ih]

/-- The first `Close` of an open client wrapper, outside the re-entrant configuration. -/
theorem wrapClientConn_Close_first (fuel : Nat) (w : World)
    (hmu : w.wcc.closeMu = false) (hmu2 : w.wsc.closeMu = false)
    (hcl : w.wcc.closed = false) (hre : w.reentrant = false) :
    ∃ w1, wrapClientConn.Close (fuel + 3) w
        = .returned (w.clientTransport.closeResult w.clientTransport.closeCalls) w1 ∧
      w1.wcc = ⟨false, true, w.clientTransport.closeResult w.clientTransport.closeCalls⟩ ∧
      w1.clientTransport.closeCalls = w.clientTransport.closeCalls + 1 ∧
      w1.proxy = w.proxy ∧
      w1.trace.count .clientTransportClose = w.trace.count .clientTransportClose + 1 ∧
      w1.trace.filter Event.isClientDisconnected =
        w.trace.filter Event.isClientDisconnected ++
          w.proxy.Addons.map (fun addon => Event.ClientDisconnected addon.name) := by
  obtain ⟨p, ⟨mu, cl, ce⟩, ⟨mu2, cl2, ce2⟩, cc, sc, car, ⟨tcp, n1, f1⟩, st, tr⟩ := w
  simp only at hmu hmu2 hcl
  subst hmu hmu2 hcl
  cases sc
  · simp [wrapClientConn.Close, World.emit, World.unlockClient, dispatch_eq,
      List.count_append, filter_isCD_map_CD, count_ctc_map_CD, Event.isClientDisconnected]
  · cases cl2
    · rcases cc with _ | ⟨conn, tls, uc⟩
      · simp [wrapClientConn.Close, wrapServerConn.Close, World.emit, World.unlockClient,
          World.unlockServer, dispatch_eq, List.count_append, filter_isCD_map_CD,
          filter_isCD_map_SD, count_ctc_map_CD, count_ctc_map_SD, Event.isClientDisconnected]
      · cases tls <;> cases car <;> cases conn <;> cases tcp <;>
          first
          | (exfalso; revert hre; simp [World.reentrant]; done)
          | simp [wrapClientConn.Close, wrapServerConn.Close, wrapClientConn.CloseRead,
              World.emit, World.unlockClient, World.unlockServer, dispatch_eq,
              List.count_append, filter_isCD_map_CD, filter_isCD_map_SD, count_ctc_map_CD,
              count_ctc_map_SD, Event.isClientDisconnected]
    · simp [wrapClientConn.Close, wrapServerConn.Close, World.emit, World.unlockClient,
        World.unlockServer, dispatch_eq, List.count_append, filter_isCD_map_CD,
        count_ctc_map_CD, Event.isClientDisconnected]

/-- The first `Close` of an open server wrapper, outside the re-entrant configuration. -/
theorem wrapServerConn_Close_first (fuel : Nat) (w : World)
    (hmu : w.wcc.closeMu = false) (hmu2 : w.wsc.closeMu = false)
    (hcl : w.wsc.closed = false) (hre : w.reentrant = false) :
    ∃ w1, wrapServerConn.Close (fuel + 3) w
        = .returned (w.serverTransport.closeResult w.serverTransport.closeCalls) w1 ∧
      w1.wsc = ⟨false, true, w.serverTransport.closeResult w.serverTransport.closeCalls⟩ ∧
      w1.serverTransport.closeCalls = w.serverTransport.closeCalls + 1 ∧
      w1.proxy = w.proxy ∧
      w1.trace.count .serverTransportClose = w.trace.count .serverTransportClose + 1 ∧
      w1.trace.filter Event.isServerDisconnected =
        w.trace.filter Event.isServerDisconnected ++
          w.proxy.Addons.map (fun addon => Event.ServerDisconnected addon.name) := by
  obtain ⟨p, ⟨mu, cl, ce⟩, ⟨mu2, cl2, ce2⟩, cc, sc, car, ⟨tcp, n1, f1⟩, ⟨tcp2, n2, f2⟩, tr⟩ := w
  simp only at hmu hmu2 hcl
  subst hmu hmu2 hcl
  rcases cc with _ | ⟨conn, tls, uc⟩
  · simp [wrapServerConn.Close, World.emit, World.unlockServer, dispatch_eq,
      List.count_append, filter_isSD_map_SD, count_stc_map_SD, Event.isServerDisconnected]
  · cases tls <;> cases car <;> cases conn <;> cases tcp <;> cases cl <;> cases sc <;>
      first
      | (exfalso; revert hre; simp [World.reentrant]; done)
      | simp [wrapClientConn.Close, wrapServerConn.Close, wrapClientConn.CloseRead,
          World.emit, World.unlockClient, World.unlockServer, dispatch_eq,
          List.count_append, filter_isSD_map_SD, filter_isSD_map_CD, count_stc_map_CD,
          count_stc_map_SD, Event.isServerDisconnected]

/-- A `Close` on a server wrapper whose mutex is held waits at `Lock`. -/
theorem wrapServerConn_Close_locked (fuel : Nat) (w : World) (h : w.wsc.closeMu = true) :
    wrapServerConn.Close (fuel + 1) w = .blocked (w.emit [.enterServerClose]) := by
  simp [wrapServerConn.Close, World.emit, h]

/-- A `Close` on a client wrapper whose mutex is held waits at `Lock`. -/
theorem wrapClientConn_Close_locked (fuel : Nat) (w : World) (h : w.wcc.closeMu = true) :
    wrapClientConn.Close (fuel + 1) w = .blocked (w.emit [.enterClientClose]) := by
  simp [wrapClientConn.Close, World.emit, h]

/-- A `Close` on an open client wrapper whose cascade meets the held mutex of the server
wrapper. -/
theorem wrapClientConn_Close_meets_locked_server (fuel : Nat) (w : World)
    (hmu : w.wcc.closeMu = false) (hcl : w.wcc.closed = false)
    (hsc : w.ServerConn = true) (hlock : w.wsc.closeMu = true) :
    wrapClientConn.Close (fuel + 2) w = .blocked
      { w with
        wcc := { closeMu := true, closed := true,
                 closeErr := w.clientTransport.closeResult w.clientTransport.closeCalls }
        clientTransport := { w.clientTransport with
          closeCalls := w.clientTransport.closeCalls + 1 }
        trace := w.trace ++ [.enterClientClose, .clientTransportClose, .closeChan] ++
          w.proxy.Addons.map (fun addon => Event.ClientDisconnected addon.name) ++
          [.enterServerClose] } := by
  have h : wrapClientConn.Close (fuel + 2) w =
      wrapClientConn.Close ((fuel + 1) + 1) w := rfl
  rw [h, wrapClientConn.Close]
  simp [World.emit, hmu, hcl, hsc, dispatch_eq, wrapServerConn_Close_locked, hlock]

/-- A `Close` on an open server wrapper that goes on to `cconn.Conn.Close()` while the mutex
of the client wrapper is held. -/
theorem wrapServerConn_Close_meets_locked_client (fuel : Nat) (w : World) (cconn : ClientConn)
    (hmu2 : w.wsc.closeMu = false) (hcl : w.wsc.closed = false)
    (hc : w.ClientConn = some cconn) (ht : cconn.Tls = true)
    (hconn : cconn.Conn = .wrapClientConn) (hcar : w.closeAfterResponse = false)
    (hlock : w.wcc.closeMu = true) :
    wrapServerConn.Close (fuel + 2) w = .blocked
      { w with
        wsc := { closeMu := true, closed := true,
                 closeErr := w.serverTransport.closeResult w.serverTransport.closeCalls }
        serverTransport := { w.serverTransport with
          closeCalls := w.serverTransport.closeCalls + 1 }
        trace := w.trace ++ [.enterServerClose, .serverTransportClose] ++
          w.proxy.Addons.map (fun addon => Event.ServerDisconnected addon.name) ++
          [.enterClientClose] } := by
  have h : wrapServerConn.Close (fuel + 2) w =
      wrapServerConn.Close ((fuel + 1) + 1) w := rfl
  rw [h, wrapServerConn.Close]
  simp [World.emit, hmu2, hcl, hc, ht, hconn, hcar, dispatch_eq,
    wrapClientConn_Close_locked, hlock]

theorem reentrant_iff (w : World) :
    w.reentrant = true ↔
      w.ServerConn = true ∧ w.wcc.closed = false ∧ w.wsc.closed = false ∧
      w.closeAfterResponse = false ∧
      ∃ cconn, w.ClientConn = some cconn ∧ cconn.Tls = true ∧ cconn.Conn = .wrapClientConn := by
  unfold World.reentrant
  cases w.ClientConn with
  | none => simp
  | some cconn => simp; tauto

/-- In the re-entrant configuration a `Close` started on the server wrapper calls
`wrapClientConn.Close`, whose cascade comes back to `wrapServerConn.Close` and waits on the
mutex the first call still holds. -/
theorem wrapServerConn_Close_reentrant (fuel : Nat) (w : World)
    (hmu : w.wcc.closeMu = false) (hmu2 : w.wsc.closeMu = false)
    (hre : w.reentrant = true) :
    ∃ w1, wrapServerConn.Close (fuel + 3) w = .blocked w1 ∧
      w1.trace = w.trace ++ [.enterServerClose, .serverTransportClose] ++
        w.proxy.Addons.map (fun addon => Event.ServerDisconnected addon.name) ++
        [.enterClientClose, .clientTransportClose, .closeChan] ++
        w.proxy.Addons.map (fun addon => Event.ClientDisconnected addon.name) ++
        [.enterServerClose] := by
  obtain ⟨hsc, hcl, hcl2, hcar, cconn, hc, ht, hconn⟩ := (reentrant_iff w).mp hre
  have h : wrapServerConn.Close (fuel + 3) w =
      wrapServerConn.Close ((fuel + 2) + 1) w := rfl
  rw [h, wrapServerConn.Close]
  simp [World.emit, hmu2, hcl2, hc, ht, hconn, hcar, dispatch_eq,
    wrapClientConn_Close_meets_locked_server, hmu, hcl, hsc]

/-- In the re-entrant configuration a `Close` started on the client wrapper cascades to
`wrapServerConn.Close`, which calls `wrapClientConn.Close` again and waits on the mutex the
first call still holds. -/
theorem wrapClientConn_Close_reentrant (fuel : Nat) (w : World)
    (hmu : w.wcc.closeMu = false) (hmu2 : w.wsc.closeMu = false)
    (hre : w.reentrant = true) :
    ∃ w1, wrapClientConn.Close (fuel + 3) w = .blocked w1 ∧
      w1.trace = w.trace ++ [.enterClientClose, .clientTransportClose, .closeChan] ++
        w.proxy.Addons.map (fun addon => Event.ClientDisconnected addon.name) ++
        [.enterServerClose, .serverTransportClose] ++
        w.proxy.Addons.map (fun addon => Event.ServerDisconnected addon.name) ++
        [.enterClientClose] := by
  obtain ⟨hsc, hcl, hcl2, hcar, cconn, hc, ht, hconn⟩ := (reentrant_iff w).mp hre
  have h : wrapClientConn.Close (fuel + 3) w =
      wrapClientConn.Close ((fuel + 2) + 1) w := rfl
  rw [h, wrapClientConn.Close]
  simp [World.emit, hmu, hcl, hsc, dispatch_eq,
    wrapServerConn_Close_meets_locked_client _ _ cconn, hmu2, hcl2, hc, ht, hconn, hcar]

/-- Repeated `Close` calls on a closed client wrapper all return the stored error and touch
nothing but the trace. -/
theorem closeSeq_client_closed (fuel n : Nat) (w : World)
    (hmu : w.wcc.closeMu = false) (hcl : w.wcc.closed = true) :
    closeSeq (wrapClientConn.Close (fuel + 1)) n w =
      some (List.replicate n w.wcc.closeErr,
        { w with trace := w.trace ++ List.replicate n .enterClientClose }) := by
  induction n generalizing w with
  | zero => simp [closeSeq]
  | succ k ih =>
    rw [closeSeq, wrapClientConn_Close_closed fuel w hmu hcl]
    simp only
    rw [ih { w with trace := w.trace ++ [.enterClientClose] } hmu hcl]
    simp [List.replicate_succ]

theorem closeSeq_server_closed (fuel n : Nat) (w : World)
    (hmu : w.wsc.closeMu = false) (hcl : w.wsc.closed = true) :
    closeSeq (wrapServerConn.Close (fuel + 1)) n w =
      some (List.replicate n w.wsc.closeErr,
        { w with trace := w.trace ++ List.replicate n .enterServerClose }) := by
  induction n generalizing w with
  | zero => simp [closeSeq]
  | succ k ih =>
    rw [closeSeq, wrapServerConn_Close_closed fuel w hmu hcl]
    simp only
    rw [ih { w with trace := w.trace ++ [.enterServerClose] } hmu hcl]
    simp [List.replicate_succ]

theorem count_ctc_replicate_enter (n : Nat) :
    (List.replicate n Event.enterClientClose).count Event.clientTransportClose = 0 := by
  induction n with
  | zero => rfl
  | succ k ih => simp [List.replicate_succ, List.count_cons, ih]

theorem count_stc_replicate_enter (n : Nat) :
    (List.replicate n Event.enterServerClose).count Event.serverTransportClose = 0 := by
  induction n with
  | zero => rfl
  | succ k ih => simp [List.replicate_succ, List.count_cons, ih]

theorem filter_isCD_replicate_enter (n : Nat) :
    (List.replicate n Event.enterClientClose).filter Event.isClientDisconnected = [] := by
  induction n with
  | zero => rfl
  | succ k ih => simp [List.replicate_succ, List.filter, Event.isClientDisconnected, ih]

theorem filter_isSD_replicate_enter (n : Nat) :
    (List.replicate n Event.enterServerClose).filter Event.isServerDisconnected = [] := by
  induction n with
  | zero => rfl
  | succ k ih => simp [List.replicate_succ, List.filter, Event.isServerDisconnected, ih]

/-- Outside the re-entrant configuration `Close` on the client wrapper is idempotent: each
of `n + 1` successive calls returns what the first close of the transport returned, the
transport is closed once and `ClientDisconnected` reaches every addon once, in order. -/
theorem wrapClientConn_Close_idempotent (fuel n : Nat) (w : World)
    (hmu : w.wcc.closeMu = false) (hmu2 : w.wsc.closeMu = false)
    (hcl : w.wcc.closed = false) (hre : w.reentrant = false) :
    ∃ w2, closeSeq (wrapClientConn.Close (fuel + 3)) (n + 1) w =
        some (List.replicate (n + 1)
          (w.clientTransport.closeResult w.clientTransport.closeCalls), w2) ∧
      w2.clientTransport.closeCalls = w.clientTransport.closeCalls + 1 ∧
      w2.trace.count .clientTransportClose = w.trace.count .clientTransportClose + 1 ∧
      w2.trace.filter Event.isClientDisconnected =
        w.trace.filter Event.isClientDisconnected ++
          w.proxy.Addons.map (fun addon => Event.ClientDisconnected addon.name) := by
  obtain ⟨w1, h1, hwcc, hcalls, _, hcount, hfilter⟩ :=
    wrapClientConn_Close_first fuel w hmu hmu2 hcl hre
  have hmu1 : w1.wcc.closeMu = false := by rw [hwcc]
  have hcl1 : w1.wcc.closed = true := by rw [hwcc]
  have herr : w1.wcc.closeErr = w.clientTransport.closeResult w.clientTransport.closeCalls := by
    rw [hwcc]
  refine ⟨{ w1 with trace := w1.trace ++ List.replicate n .enterClientClose }, ?_, hcalls, ?_, ?_⟩
  · rw [closeSeq, h1]
    simp only
    rw [closeSeq_client_closed (fuel + 2) n w1 hmu1 hcl1, herr]
    simp [List.replicate_succ]
  · simp [List.count_append, hcount, count_ctc_replicate_enter]
  · simp [hfilter, filter_isCD_replicate_enter]

/-- Outside the re-entrant configuration `Close` on the server wrapper is idempotent. -/
theorem wrapServerConn_Close_idempotent (fuel n : Nat) (w : World)
    (hmu : w.wcc.closeMu = false) (hmu2 : w.wsc.closeMu = false)
    (hcl : w.wsc.closed = false) (hre : w.reentrant = false) :
    ∃ w2, closeSeq (wrapServerConn.Close (fuel + 3)) (n + 1) w =
        some (List.replicate (n + 1)
          (w.serverTransport.closeResult w.serverTransport.closeCalls), w2) ∧
      w2.serverTransport.closeCalls = w.serverTransport.closeCalls + 1 ∧
      w2.trace.count .serverTransportClose = w.trace.count .serverTransportClose + 1 ∧
      w2.trace.filter Event.isServerDisconnected =
        w.trace.filter Event.isServerDisconnected ++
          w.proxy.Addons.map (fun addon => Event.ServerDisconnected addon.name) := by
  obtain ⟨w1, h1, hwsc, hcalls, _, hcount, hfilter⟩ :=
    wrapServerConn_Close_first fuel w hmu hmu2 hcl hre
  have hmu1 : w1.wsc.closeMu = false := by rw [hwsc]
  have hcl1 : w1.wsc.closed = true := by rw [hwsc]
  have herr : w1.wsc.closeErr = w.serverTransport.closeResult w.serverTransport.closeCalls := by
    rw [hwsc]
  refine ⟨{ w1 with trace := w1.trace ++ List.replicate n .enterServerClose }, ?_, hcalls, ?_, ?_⟩
  · rw [closeSeq, h1]
    simp only
    rw [closeSeq_server_closed (fuel + 2) n w1 hmu1 hcl1, herr]
    simp [List.replicate_succ]
  · simp [List.count_append, hcount, count_stc_replicate_enter]
  · simp [hfilter, filter_isSD_replicate_enter]

/-- C1 (evaluation at the failing configuration).  With both wrappers of a pair open, the
client marked `Tls`, `closeAfterResponse` unset and `ClientConn.Conn` holding the client
wrapper, the first `Close` on either wrapper waits forever on a mutex its own call chain
holds, so no sequence of `Close` calls returns anything. -/
theorem Close_sequence_never_returns_when_reentrant (fuel n : Nat) (w : World)
    (hmu : w.wcc.closeMu = false) (hmu2 : w.wsc.closeMu = false)
    (hre : w.reentrant = true) :
    (wrapClientConn.Close (fuel + 3) w).isBlocked = true ∧
    closeSeq (wrapClientConn.Close (fuel + 3)) (n + 1) w = none ∧
    (wrapServerConn.Close (fuel + 3) w).isBlocked = true ∧
    closeSeq (wrapServerConn.Close (fuel + 3)) (n + 1) w = none := by
  obtain ⟨w1, h1, _⟩ := wrapClientConn_Close_reentrant fuel w hmu hmu2 hre
  obtain ⟨w2, h2, _⟩ := wrapServerConn_Close_reentrant fuel w hmu hmu2 hre
  refine ⟨?_, ?_, ?_, ?_⟩
  · rw [h1]; rfl
  · rw [closeSeq, h1]
  · rw [h2]; rfl
  · rw [closeSeq, h2]

theorem Close_sequence_never_returns_when_reentrant_witness :
    (wrapClientConn.Close 3 tlsPair).isBlocked = true ∧
    closeSeq (wrapClientConn.Close 3) 2 tlsPair = none ∧
    (wrapServerConn.Close 3 tlsPair).isBlocked = true ∧
    closeSeq (wrapServerConn.Close 3) 2 tlsPair = none :=
  Close_sequence_never_returns_when_reentrant 0 1 tlsPair rfl rfl rfl

/-- C2 (evaluation at the failing configuration).  With the client marked `Tls`,
`closeAfterResponse` unset and `ClientConn.Conn` holding the client wrapper,
`wrapServerConn.Close` enters `wrapClientConn.Close` through `cconn.Conn.Close()`; the
cascade of that call comes back to `wrapServerConn.Close`, whose mutex is still held, and
the close never returns, whichever side it started on. -/
theorem wrapServerConn_Close_enters_wrapClientConn_Close (fuel : Nat) (w : World)
    (hmu : w.wcc.closeMu = false) (hmu2 : w.wsc.closeMu = false)
    (hre : w.reentrant = true) :
    (wrapServerConn.Close (fuel + 3) w).trace.count .enterClientClose =
      w.trace.count .enterClientClose + 1 ∧
    (wrapServerConn.Close (fuel + 3) w).trace.getLast? = some .enterServerClose ∧
    (wrapServerConn.Close (fuel + 3) w).isReturned = false ∧
    (wrapClientConn.Close (fuel + 3) w).trace.getLast? = some .enterClientClose ∧
    (wrapClientConn.Close (fuel + 3) w).isReturned = false := by
  obtain ⟨w1, h1, t1⟩ := wrapClientConn_Close_reentrant fuel w hmu hmu2 hre
  obtain ⟨w2, h2, t2⟩ := wrapServerConn_Close_reentrant fuel w hmu hmu2 hre
  have hc : ∀ addons : List Addon,
      (addons.map (fun addon => Event.ClientDisconnected addon.name)).count
        Event.enterClientClose = 0 := by
    intro addons
    induction addons with
    | nil => rfl
    | cons a rest ih => simp [List.count_cons, ih]
  have hs : ∀ addons : List Addon,
      (addons.map (fun addon => Event.ServerDisconnected addon.name)).count
        Event.enterClientClose = 0 := by
    intro addons
    induction addons with
    | nil => rfl
    | cons a rest ih => simp [List.count_cons, ih]
  refine ⟨?_, ?_, ?_, ?_, ?_⟩
  · rw [h2]
    simp [Outcome.trace, t2, List.count_append, hc, hs]
  · rw [h2]
    show w2.trace.getLast? = _
    rw [t2, List.getLast?_concat]
  · rw [h2]; rfl
  · rw [h1]
    show w1.trace.getLast? = _
    rw [t1, List.getLast?_concat]
  · rw [h1]; rfl

theorem wrapServerConn_Close_enters_wrapClientConn_Close_witness :
    (wrapServerConn.Close 3 tlsPair).trace.count .enterClientClose = 0 + 1 ∧
    (wrapServerConn.Close 3 tlsPair).trace.getLast? = some .enterServerClose ∧
    (wrapServerConn.Close 3 tlsPair).isReturned = false ∧
    (wrapClientConn.Close 3 tlsPair).trace.getLast? = some .enterClientClose ∧
    (wrapClientConn.Close 3 tlsPair).isReturned = false :=
  wrapServerConn_Close_enters_wrapClientConn_Close 0 tlsPair rfl rfl rfl

/-- Whenever the client is not marked `Tls`, or `closeAfterResponse` is set, or
`ClientConn.Conn` is not the client wrapper, `wrapServerConn.Close` returns without entering
`wrapClientConn.Close`. -/
theorem wrapServerConn_Close_stays_out_of_wrapClientConn_Close (fuel : Nat) (w : World)
    (hmu2 : w.wsc.closeMu = false)
    (hcfg : ∀ cconn, w.ClientConn = some cconn →
      cconn.Tls = false ∨ w.closeAfterResponse = true ∨ cconn.Conn = .foreign) :
    ∃ w1, wrapServerConn.Close (fuel + 1) w =
        .returned (if w.wsc.closed then w.wsc.closeErr
          else w.serverTransport.closeResult w.serverTransport.closeCalls) w1 ∧
      w1.trace.count .enterClientClose = w.trace.count .enterClientClose := by
  have hs : ∀ addons : List Addon,
      (addons.map (fun addon => Event.ServerDisconnected addon.name)).count
        Event.enterClientClose = 0 := by
    intro addons
    induction addons with
    | nil => rfl
    | cons a rest ih => simp [List.count_cons, ih]
  obtain ⟨p, ⟨mu, cl, ce⟩, ⟨mu2, cl2, ce2⟩, cc, sc, car, ⟨tcp, n1, f1⟩, ⟨tcp2, n2, f2⟩, tr⟩ := w
  simp only at hmu2
  subst hmu2
  cases cl2
  · rcases cc with _ | ⟨conn, tls, uc⟩
    · simp [wrapServerConn.Close, World.emit, World.unlockServer, dispatch_eq,
        List.count_append, hs]
    · have h := hcfg _ rfl
      simp only at h
      cases tls <;> cases car <;> cases conn <;> cases tcp <;>
        first
        | (exfalso; revert h; simp; done)
        | simp [wrapServerConn.Close, wrapClientConn.CloseRead, World.emit,
            World.unlockServer, dispatch_eq, List.count_append, hs]
  · simp [wrapServerConn.Close, World.emit, World.unlockServer]

/-- On a pair whose client wrapper is open and whose mutexes are free, `cconn.Close()`
closes the client transport, within the fuel given. -/
theorem cconnClose_closes (fuel : Nat) (w : World)
    (hmu : w.wcc.closeMu = false) (hmu2 : w.wsc.closeMu = false)
    (hcl : w.wcc.closed = false) :
    Event.clientTransportClose ∈ (cconnClose (fuel + 3) w).trace ∧
    (cconnClose (fuel + 3) w).ending ≠ .outOfFuel := by
  unfold cconnClose
  cases hre : w.reentrant with
  | false =>
    obtain ⟨w1, h1, _, _, _, hcount, _⟩ :=
      wrapClientConn_Close_first fuel { w with trace := [] } hmu hmu2 hcl hre
    rw [h1]
    refine ⟨?_, by simp⟩
    simp only [List.count_nil, Nat.zero_add] at hcount
    exact List.count_pos_iff.mp (by rw [hcount]; exact Nat.one_pos)
  | true =>
    obtain ⟨w1, h1, t1⟩ :=
      wrapClientConn_Close_reentrant fuel { w with trace := [] } hmu hmu2 hre
    rw [h1]
    refine ⟨?_, by simp⟩
    simp only [t1]
    simp

theorem Run.after_trace (es : List Event) (r : Run) : (Run.after es r).trace = es ++ r.trace :=
  rfl

theorem Run.after_ending (es : List Event) (r : Run) : (Run.after es r).ending = r.ending :=
  rfl

theorem Run.andThen_trace (r : Run) (rest : List Event) :
    (r.andThen rest).trace = r.trace ++ (if r.ending = .returned then rest else []) := by
  obtain ⟨t, e⟩ := r
  cases e <;> simp [Run.andThen]

theorem Run.deferred_trace (body : Run) (es : List Event) :
    (Run.deferred body es).trace =
      body.trace ++ (if body.ending = .returned ∨ body.ending = .panicked then es else []) := by
  obtain ⟨t, e⟩ := body
  cases e <;> simp [Run.deferred]

theorem clientConnectedLoop_trace (addons : List Addon) (cconn : ClientConn)
    (trace : List Event) :
    (clientConnectedLoop addons cconn trace).2 =
      trace ++ addons.map (fun addon => Event.ClientConnected addon.name) := by
  induction addons generalizing cconn trace with
  | nil => simp [clientConnectedLoop]
  | cons a rest ih => simp [clientConnectedLoop, ih]

theorem foldl_AddAddon_Addons (addons : List Addon) (proxy : Proxy) :
    (addons.foldl Proxy.AddAddon proxy).Addons = proxy.Addons ++ addons := by
  induction addons generalizing proxy with
  | nil => simp
  | cons a rest ih => simp [List.foldl, ih, Proxy.AddAddon]

theorem accessProxyServerLoop_eq (req : Request) (addons : List Addon) (wrote : Bool)
    (trace : List Event) :
    accessProxyServerLoop req addons wrote trace =
      (wrote || someAddonWrote req addons, trace ++ accessEvents req addons) := by
  induction addons generalizing wrote trace with
  | nil => simp [accessProxyServerLoop, someAddonWrote, accessEvents]
  | cons a rest ih =>
    simp [accessProxyServerLoop, ih, someAddonWrote, accessEvents, Bool.or_assoc]

theorem filter_isAPS_accessEvents (req : Request) (addons : List Addon) :
    (accessEvents req addons).filter Event.isAccessProxyServer =
      addons.map (fun addon => Event.AccessProxyServer addon.name) := by
  induction addons with
  | nil => rfl
  | cons a rest ih =>
    have h : ∀ calls : List WriterCall,
        (calls.map (Event.addonWrite a.name)).filter Event.isAccessProxyServer = [] := by
      intro calls
      induction calls with
      | nil => rfl
      | cons c cs ihc => simp [List.filter, Event.isAccessProxyServer, ihc]
    simp [accessEvents, List.filter_append, h, ih, List.filter, Event.isAccessProxyServer]

theorem statusCodes_append (xs ys : List Event) :
    statusCodes (xs ++ ys) = statusCodes xs ++ statusCodes ys := by
  induction xs with
  | nil => rfl
  | cons x rest ih => cases x <;> simp [statusCodes, ih]

theorem statusCodes_accessEvents (req : Request) (addons : List Addon) :
    statusCodes (accessEvents req addons) = [] := by
  induction addons with
  | nil => rfl
  | cons a rest ih =>
    have h : ∀ calls : List WriterCall,
        statusCodes (calls.map (Event.addonWrite a.name)) = [] := by
      intro calls
      induction calls with
      | nil => rfl
      | cons c cs ihc => simp [statusCodes, ihc]
    simp [accessEvents, statusCodes_append, h, ih, statusCodes]

/-- The `ClientDisconnected` calls of the first `Close` on an open client wrapper, whether
the call returns or blocks. -/
theorem wrapClientConn_Close_hooks (fuel : Nat) (w : World)
    (hmu : w.wcc.closeMu = false) (hmu2 : w.wsc.closeMu = false)
    (hcl : w.wcc.closed = false) :
    (wrapClientConn.Close (fuel + 3) w).trace.filter Event.isClientDisconnected =
      w.trace.filter Event.isClientDisconnected ++
        w.proxy.Addons.map (fun addon => Event.ClientDisconnected addon.name) := by
  cases hre : w.reentrant with
  | false =>
    obtain ⟨w1, h1, _, _, _, _, hfilter⟩ := wrapClientConn_Close_first fuel w hmu hmu2 hcl hre
    rw [h1]
    exact hfilter
  | true =>
    obtain ⟨w1, h1, t1⟩ := wrapClientConn_Close_reentrant fuel w hmu hmu2 hre
    rw [h1]
    show w1.trace.filter _ = _
    rw [t1]
    simp [List.filter_append, filter_isCD_map_CD, filter_isCD_map_SD, List.filter,
      Event.isClientDisconnected]

/-- The `ServerDisconnected` calls of the first `Close` on an open server wrapper, whether
the call returns or blocks. -/
theorem wrapServerConn_Close_hooks (fuel : Nat) (w : World)
    (hmu : w.wcc.closeMu = false) (hmu2 : w.wsc.closeMu = false)
    (hcl : w.wsc.closed = false) :
    (wrapServerConn.Close (fuel + 3) w).trace.filter Event.isServerDisconnected =
      w.trace.filter Event.isServerDisconnected ++
        w.proxy.Addons.map (fun addon => Event.ServerDisconnected addon.name) := by
  cases hre : w.reentrant with
  | false =>
    obtain ⟨w1, h1, _, _, _, _, hfilter⟩ := wrapServerConn_Close_first fuel w hmu hmu2 hcl hre
    rw [h1]
    exact hfilter
  | true =>
    obtain ⟨w1, h1, t1⟩ := wrapServerConn_Close_reentrant fuel w hmu hmu2 hre
    rw [h1]
    show w1.trace.filter _ = _
    rw [t1]
    simp [List.filter_append, filter_isSD_map_CD, filter_isSD_map_SD, List.filter,
      Event.isServerDisconnected]

theorem ServeHTTP_directAccess (proxy : Proxy) (cconn : ClientConn) (env : Env) (fuel : Nat)
    (w : World) (req : Request)
    (hm : req.Method ≠ "CONNECT") (hu : req.URL.IsAbs = false ∨ req.URL.Host = "") :
    (entry.ServeHTTP proxy cconn env fuel w req).trace =
      [.call "helper.NewResponseCheck"] ++ accessEvents req proxy.Addons ++
        (if someAddonWrote req proxy.Addons then []
         else [.WriteHeader 400, .Write "此为代理服务器，不能直接发起请求"]) := by
  have h1 : (req.Method == "CONNECT") = false := by simpa using hm
  have h2 : (!req.URL.IsAbs || req.URL.Host == "") = true := by
    rcases hu with h | h <;> simp [h]
  simp only [entry.ServeHTTP, h1, h2, entry.directAccess, accessProxyServerLoop_eq]
  cases someAddonWrote req proxy.Addons <;> simp

/-- C3.  After the addons `a1..an` are registered with `AddAddon` in that order, every hook
loop of the entry code calls its hook once on each addon, in the order `a1, ..., an`:
`ClientConnected` in a successful `Accept` (all of them before `Accept` returns), 
`ClientDisconnected` in the first `Close` of a client wrapper, `ServerDisconnected` in the
first `Close` of a server wrapper, and `AccessProxyServer` in the direct-access branch of
`ServeHTTP`. -/
theorem hooks_dispatched_in_registration_order (addons : List Addon) (proxy : Proxy)
    (hreg : proxy = addons.foldl Proxy.AddAddon NewProxy)
    (cconn : ClientConn) (env : Env) (req : Request) (fuel : Nat) (w : World) :
    proxy.Addons = addons ∧
    (wrapListener.Accept proxy none cconn).err = none ∧
    (wrapListener.Accept proxy none cconn).trace =
      addons.map (fun addon => Event.ClientConnected addon.name) ∧
    (w.proxy = proxy → w.wcc.closeMu = false → w.wsc.closeMu = false →
      w.wcc.closed = false →
      (wrapClientConn.Close (fuel + 3) w).trace.filter Event.isClientDisconnected =
        w.trace.filter Event.isClientDisconnected ++
          addons.map (fun addon => Event.ClientDisconnected addon.name)) ∧
    (w.proxy = proxy → w.wcc.closeMu = false → w.wsc.closeMu = false →
      w.wsc.closed = false →
      (wrapServerConn.Close (fuel + 3) w).trace.filter Event.isServerDisconnected =
        w.trace.filter Event.isServerDisconnected ++
          addons.map (fun addon => Event.ServerDisconnected addon.name)) ∧
    (req.Method ≠ "CONNECT" → (req.URL.IsAbs = false ∨ req.URL.Host = "") →
      (entry.ServeHTTP proxy cconn env fuel w req).trace.filter Event.isAccessProxyServer =
        addons.map (fun addon => Event.AccessProxyServer addon.name)) := by
  have hA : proxy.Addons = addons := by
    rw [hreg, foldl_AddAddon_Addons]
    rfl
  refine ⟨hA, rfl, ?_, ?_, ?_, ?_⟩
  · simp [wrapListener.Accept, clientConnectedLoop_trace, hA]
  · intro hw hmu hmu2 hcl
    rw [wrapClientConn_Close_hooks fuel w hmu hmu2 hcl, hw, hA]
  · intro hw hmu hmu2 hcl
    rw [wrapServerConn_Close_hooks fuel w hmu hmu2 hcl, hw, hA]
  · intro hm hu
    rw [ServeHTTP_directAccess proxy cconn env fuel w req hm hu, hA]
    cases someAddonWrote req addons <;>
      simp [List.filter_append, filter_isAPS_accessEvents, List.filter,
        Event.isAccessProxyServer]

theorem hooks_dispatched_in_registration_order_witness :
    (wrapListener.Accept (twoAddons.foldl Proxy.AddAddon NewProxy) none lazyClient).trace =
      [.ClientConnected "A", .ClientConnected "B"] :=
  (hooks_dispatched_in_registration_order twoAddons (twoAddons.foldl Proxy.AddAddon NewProxy)
    rfl lazyClient allGood getDirect 0 tlsPair).2.2.1

/-- The only hooks `transferHttp` fires are the disconnect hooks of the close of the
hijacked client connection; it fires no `Request` or `Response` hook. -/
theorem transferHttp_hooks (env : Env) (fuel : Nat) (w : World) (req : Request) :
    (transferHttp env fuel w req).trace.filter Event.isOtherHook = [] ∧
    (transferHttp env fuel w req).trace.filter Event.isFlowHook = [] := by
  have h1 := cconnClose_filter Event.isOtherHook isOtherHook_of_closeEvent fuel w
  have h2 := cconnClose_filter Event.isFlowHook isFlowHook_of_closeEvent fuel w
  obtain ⟨hj, he, de, we, pk, it, du⟩ := env
  cases hj <;> cases he <;> cases de <;> cases we <;>
    simp [transferHttp, Run.after, httpError, List.filter_append, h1, h2, List.filter,
      Event.isOtherHook, Event.isHook, Event.isFlowHook, Event.isDisconnectHook]

/-- C4 (as stated, refuted).  A request for an absolute URL that the intercept rule
declines goes to `transferHttp`, whose deferred close of the hijacked client connection
calls `ClientDisconnected` on every addon. -/
theorem raw_forward_fires_disconnect_hooks_counterexample :
    getExample.Method ≠ "CONNECT" ∧ getExample.URL.IsAbs = true ∧
    getExample.URL.Host ≠ "" ∧ decliningProxy.shouldIntercept.isSome = true ∧
    entry.shouldHandle decliningProxy getExample = false ∧
    (entry.ServeHTTP decliningProxy lazyClient allGood 3 decliningPair getExample).trace =
      [.call "transferHttp", .Hijack, .connHijacked, .netDial "example.com:80".data,
        .serverWrite, .transfer, .connClose, .enterClientClose, .clientTransportClose,
        .closeChan, .ClientDisconnected "A", .ClientDisconnected "B"] ∧
    (entry.ServeHTTP decliningProxy lazyClient allGood 3 decliningPair getExample).trace.filter
      Event.isHook = [.ClientDisconnected "A", .ClientDisconnected "B"] ∧
    (entry.ServeHTTP decliningProxy lazyClient allGood 3 decliningPair getExample).trace.filter
      Event.isHook ≠ [] := by
  decide

/-- C4 (amended).  `ServeHTTP` takes one of four routes, in this priority: a `CONNECT`
request goes to `handleConnect` whatever its URL; otherwise a URL that is not absolute or
has no host gets the direct-access handling; otherwise an intercept rule that is set and
returns false sends the request to `transferHttp`, in which no `Request` or `Response` hook
is called and the only addon hooks are the disconnect hooks fired by the close of the
hijacked client connection; otherwise the request goes to the attacker.  Without an
intercept rule `shouldHandle` is true, and the four routes start with four different
events. -/
theorem ServeHTTP_route_priority (proxy : Proxy) (cconn : ClientConn) (env : Env)
    (fuel : Nat) (w : World) (req : Request) :
    (req.Method = "CONNECT" →
      entry.ServeHTTP proxy cconn env fuel w req =
        entry.handleConnect proxy cconn env fuel w req) ∧
    (req.Method ≠ "CONNECT" → (req.URL.IsAbs = false ∨ req.URL.Host = "") →
      entry.ServeHTTP proxy cconn env fuel w req =
        ⟨entry.directAccess proxy req, .returned⟩) ∧
    (req.Method ≠ "CONNECT" → req.URL.IsAbs = true → req.URL.Host ≠ "" →
      ∀ rule, proxy.shouldIntercept = some rule → rule req = false →
        entry.ServeHTTP proxy cconn env fuel w req = transferHttp env fuel w req ∧
        (entry.ServeHTTP proxy cconn env fuel w req).trace.filter Event.isOtherHook = [] ∧
        (entry.ServeHTTP proxy cconn env fuel w req).trace.filter Event.isFlowHook = []) ∧
    (req.Method ≠ "CONNECT" → req.URL.IsAbs = true → req.URL.Host ≠ "" →
      (proxy.shouldIntercept = none ∨
        ∃ rule, proxy.shouldIntercept = some rule ∧ rule req = true) →
      entry.ServeHTTP proxy cconn env fuel w req =
        ⟨[.call "attacker.initHttpDialFn", .call "attacker.attack"], .returned⟩) ∧
    (proxy.shouldIntercept = none → entry.shouldHandle proxy req = true) ∧
    (entry.handleConnect proxy cconn env fuel w req).trace.head? =
      some (.call "handleConnect") ∧
    (entry.directAccess proxy req).head? = some (.call "helper.NewResponseCheck") ∧
    (transferHttp env fuel w req).trace.head? = some (.call "transferHttp") := by
  refine ⟨?_, ?_, ?_, ?_, ?_, ?_, ?_, ?_⟩
  · intro hm
    simp [entry.ServeHTTP, hm]
  · intro hm hu
    have h1 : (req.Method == "CONNECT") = false := by simpa using hm
    have h2 : (!req.URL.IsAbs || req.URL.Host == "") = true := by
      rcases hu with h | h <;> simp [h]
    simp [entry.ServeHTTP, h1, h2]
  · intro hm ha hh rule hr hf
    have h1 : (req.Method == "CONNECT") = false := by simpa using hm
    have h2 : (!req.URL.IsAbs || req.URL.Host == "") = false := by simp [ha, hh]
    have h3 : entry.ServeHTTP proxy cconn env fuel w req = transferHttp env fuel w req := by
      simp [entry.ServeHTTP, h1, h2, entry.shouldHandle, hr, hf]
    refine ⟨h3, ?_, ?_⟩
    · rw [h3]; exact (transferHttp_hooks env fuel w req).1
    · rw [h3]; exact (transferHttp_hooks env fuel w req).2
  · intro hm ha hh hrule
    have h1 : (req.Method == "CONNECT") = false := by simpa using hm
    have h2 : (!req.URL.IsAbs || req.URL.Host == "") = false := by simp [ha, hh]
    rcases hrule with hn | ⟨rule, hr, ht⟩
    · simp [entry.ServeHTTP, h1, h2, entry.shouldHandle, hn]
    · simp [entry.ServeHTTP, h1, h2, entry.shouldHandle, hr, ht]
  · intro hn
    simp [entry.shouldHandle, hn]
  · simp [entry.handleConnect, Run.deferred_trace, Run.after]
  · simp [entry.directAccess, accessProxyServerLoop_eq]
    cases someAddonWrote req proxy.Addons <;> simp
  · simp [transferHttp, Run.after]

theorem filter_isResponseWrite_accessEvents (req : Request) (addons : List Addon) :
    (accessEvents req addons).filter Event.isResponseWrite = [] := by
  induction addons with
  | nil => rfl
  | cons a rest ih =>
    have h : ∀ calls : List WriterCall,
        (calls.map (Event.addonWrite a.name)).filter Event.isResponseWrite = [] := by
      intro calls
      induction calls with
      | nil => rfl
      | cons c cs ihc => simp [List.filter, Event.isResponseWrite, ihc]
    simp [accessEvents, List.filter_append, h, ih, List.filter, Event.isResponseWrite]

/-- C5.  For a request that is not `CONNECT` and whose URL is not absolute or has no host,
`ServeHTTP` calls `AccessProxyServer` on every addon, in order, and then writes status 400
with the fixed body exactly when no addon wrote to the response; when an addon wrote,
`ServeHTTP` writes no status and no body of its own. -/
theorem direct_access_reply (proxy : Proxy) (cconn : ClientConn) (env : Env) (fuel : Nat)
    (w : World) (req : Request)
    (hm : req.Method ≠ "CONNECT") (hu : req.URL.IsAbs = false ∨ req.URL.Host = "") :
    (entry.ServeHTTP proxy cconn env fuel w req).trace =
      [.call "helper.NewResponseCheck"] ++ accessEvents req proxy.Addons ++
        (if someAddonWrote req proxy.Addons then []
         else [.WriteHeader 400, .Write "此为代理服务器，不能直接发起请求"]) ∧
    (entry.ServeHTTP proxy cconn env fuel w req).trace.filter Event.isAccessProxyServer =
      proxy.Addons.map (fun addon => Event.AccessProxyServer addon.name) ∧
    (someAddonWrote req proxy.Addons = false ↔
      (entry.ServeHTTP proxy cconn env fuel w req).trace.filter Event.isResponseWrite =
        [.WriteHeader 400, .Write "此为代理服务器，不能直接发起请求"]) ∧
    (someAddonWrote req proxy.Addons = true ↔
      (entry.ServeHTTP proxy cconn env fuel w req).trace.filter Event.isResponseWrite = []) := by
  have h := ServeHTTP_directAccess proxy cconn env fuel w req hm hu
  refine ⟨h, ?_, ?_, ?_⟩
  · rw [h]
    cases someAddonWrote req proxy.Addons <;>
      simp [List.filter_append, filter_isAPS_accessEvents, List.filter,
        Event.isAccessProxyServer]
  · rw [h]
    cases someAddonWrote req proxy.Addons <;>
      simp [List.filter_append, filter_isResponseWrite_accessEvents, List.filter,
        Event.isResponseWrite]
  · rw [h]
    cases someAddonWrote req proxy.Addons <;>
      simp [List.filter_append, filter_isResponseWrite_accessEvents, List.filter,
        Event.isResponseWrite]

theorem direct_access_reply_witness :
    (entry.ServeHTTP (twoAddons.foldl Proxy.AddAddon NewProxy) lazyClient allGood 3
        acceptedPair getDirect).trace =
      [.call "helper.NewResponseCheck", .AccessProxyServer "A", .AccessProxyServer "B",
        .WriteHeader 400, .Write "此为代理服务器，不能直接发起请求"] :=
  (direct_access_reply (twoAddons.foldl Proxy.AddAddon NewProxy) lazyClient allGood 3
    acceptedPair getDirect (by decide) (Or.inl rfl)).1

theorem statusCodes_eq_nil (xs : List Event) (h : ∀ e ∈ xs, e.isResponseWrite = false) :
    statusCodes xs = [] := by
  induction xs with
  | nil => rfl
  | cons x rest ih =>
    have hx := h x (List.mem_cons_self _ _)
    have hr := ih (fun e he => h e (List.mem_cons_of_mem _ he))
    cases x <;> simp_all [statusCodes, Event.isResponseWrite]

/-- The close of the client connection writes no status. -/
theorem cconnClose_statusCodes (fuel : Nat) (w : World) :
    statusCodes (cconnClose fuel w).trace = [] :=
  statusCodes_eq_nil _ (cconnClose_all (fun e => e.isResponseWrite = false)
    (by intro e he; cases e <;> simp_all [Event.isCloseEvent, Event.isResponseWrite]) fuel w)

/-- In `transferHttp` the status 500 of a failed dial is written after `Hijack` has handed
the connection over, on a writer whose output no longer reaches the client. -/
theorem transferHttp_dial_failure_trace (env : Env) (fuel : Nat) (w : World) (req : Request)
    (e : String) (hd : env.dialErr = some e)
    (h1 : env.Hijacker = true) (h2 : env.HijackErr = none) :
    (transferHttp env fuel w req).trace =
      [.call "transferHttp", .Hijack, .connHijacked, .netDial (getAddress req.Host).1,
        .WriteHeader 500, .Write "Error connecting to remote server\n"] ++
        (cconnClose fuel w).trace := by
  obtain ⟨hj, he, de, we, pk, it, du⟩ := env
  simp only at hd h1 h2
  subst hd h1 h2
  simp [transferHttp, Run.after, httpError]

/-- The trace of `httpsDialLazyAttack` when the dial it makes for a tunnel that is not TLS
fails. -/
theorem httpsDialLazyAttack_dial_failure_trace (env : Env) (fuel : Nat) (w : World)
    (e : String) (hd : env.dialErr = some e)
    (h1 : env.Hijacker = true) (h2 : env.HijackErr = none) (h3 : env.writeErr = none)
    (peek : List Nat) (h4 : env.peek = .ok peek) (h5 : env.IsTls peek = false) :
    (entry.httpsDialLazyAttack env fuel w).trace =
      [.call "httpsDialLazyAttack", .Hijack, .connHijacked, connectionEstablished, .Peek 3,
        .dial "attacker.httpsDial"] ++ (cconnClose fuel w).trace ∧
    (entry.httpsDialLazyAttack env fuel w).ending = (cconnClose fuel w).ending := by
  obtain ⟨hj, he, de, we, pk, it, du⟩ := env
  simp only at hd h1 h2 h3 h4 h5
  subst hd h1 h2 h3 h4
  simp [entry.httpsDialLazyAttack, entry.establishConnection, Run.after, h5]

/-- C6.  On every route that dials the upstream, a failed dial is answered as the
specification says.  `directTransfer` and `httpsDialFirstAttack`, which dial first, write
status 502 and nothing else.  `httpsDialLazyAttack` and `transferHttp`, which dial after the
response channel has been hijacked, leave the client without any status and close the client
connection (the status 500 that `transferHttp` writes goes to the hijacked writer and does
not reach the client).  On no route is a tunnel-established line written after the failed
dial. -/
theorem dial_failure_answers (env : Env) (req : Request) (fuel : Nat) (w : World)
    (e : String) (hd : env.dialErr = some e)
    (hmu : w.wcc.closeMu = false) (hmu2 : w.wsc.closeMu = false)
    (hcl : w.wcc.closed = false) :
    (entry.directTransfer env (fuel + 3) w).trace =
      [.call "directTransfer", .dial "proxy.getUpstreamConn", .WriteHeader 502] ∧
    DialFailureAnswer (entry.directTransfer env (fuel + 3) w).trace ∧
    (entry.httpsDialFirstAttack env (fuel + 3) w).trace =
      [.call "httpsDialFirstAttack", .dial "attacker.httpsDial", .WriteHeader 502] ∧
    DialFailureAnswer (entry.httpsDialFirstAttack env (fuel + 3) w).trace ∧
    (env.Hijacker = true → env.HijackErr = none → env.writeErr = none →
      ∀ peek, env.peek = .ok peek → env.IsTls peek = false →
        (entry.httpsDialLazyAttack env (fuel + 3) w).trace =
          [.call "httpsDialLazyAttack", .Hijack, .connHijacked, connectionEstablished,
            .Peek 3, .dial "attacker.httpsDial"] ++ (cconnClose (fuel + 3) w).trace ∧
        statusCodes (entry.httpsDialLazyAttack env (fuel + 3) w).trace = [] ∧
        DialFailureAnswer (entry.httpsDialLazyAttack env (fuel + 3) w).trace) ∧
    (env.Hijacker = true → env.HijackErr = none →
      (transferHttp env (fuel + 3) w req).trace =
        [.call "transferHttp", .Hijack, .connHijacked, .netDial (getAddress req.Host).1,
          .WriteHeader 500, .Write "Error connecting to remote server\n"] ++
          (cconnClose (fuel + 3) w).trace ∧
      clientStatus (transferHttp env (fuel + 3) w req).trace = [] ∧
      DialFailureAnswer (transferHttp env (fuel + 3) w req).trace) := by
  have hclose := (cconnClose_closes fuel w hmu hmu2 hcl).1
  have hne := connectionEstablished_not_mem_cconnClose (fuel + 3) w
  have hdirect : (entry.directTransfer env (fuel + 3) w).trace =
      [.call "directTransfer", .dial "proxy.getUpstreamConn", .WriteHeader 502] := by
    simp [entry.directTransfer, Run.after, hd]
  have hfirst : (entry.httpsDialFirstAttack env (fuel + 3) w).trace =
      [.call "httpsDialFirstAttack", .dial "attacker.httpsDial", .WriteHeader 502] := by
    simp [entry.httpsDialFirstAttack, Run.after, hd]
  refine ⟨hdirect, ?_, hfirst, ?_, ?_, ?_⟩
  · rw [hdirect]; decide
  · rw [hfirst]; decide
  · intro h1 h2 h3 peek h4 h5
    rw [(httpsDialLazyAttack_dial_failure_trace env (fuel + 3) w e hd h1 h2 h3 peek h4 h5).1]
    refine ⟨rfl, ?_, ?_, ?_⟩
    · have hs := cconnClose_statusCodes (fuel + 3) w
      simp [statusCodes_append, statusCodes, connectionEstablished, hs]
    · right
      refine ⟨by simp [clientStatus, List.takeWhile, statusCodes], by simp, ?_⟩
      exact List.mem_append_right _ hclose
    · simp [fromFirstDial, List.dropWhile, Event.isDial, connectionEstablished] at hne ⊢
      exact hne
  · intro h1 h2
    rw [transferHttp_dial_failure_trace env (fuel + 3) w req e hd h1 h2]
    refine ⟨rfl, by simp [clientStatus, List.takeWhile, statusCodes], ?_, ?_⟩
    · right
      refine ⟨by simp [clientStatus, List.takeWhile, statusCodes], by simp, ?_⟩
      exact List.mem_append_right _ hclose
    · simp [fromFirstDial, List.dropWhile, Event.isDial, connectionEstablished] at hne ⊢
      exact hne

theorem dial_failure_answers_witness :
    dialFails.dialErr = some "connect: connection refused" ∧
    DialFailureAnswer (entry.directTransfer dialFails 3 acceptedPair).trace ∧
    DialFailureAnswer (entry.httpsDialFirstAttack dialFails 3 acceptedPair).trace ∧
    DialFailureAnswer (entry.httpsDialLazyAttack dialFails 3 acceptedPair).trace ∧
    DialFailureAnswer (transferHttp dialFails 3 acceptedPair getExample).trace :=
  have h := dial_failure_answers dialFails getExample 0 acceptedPair
    "connect: connection refused" rfl rfl rfl rfl
  ⟨rfl, h.2.1, h.2.2.2.1, (h.2.2.2.2.1 rfl rfl rfl [71, 69, 84] rfl rfl).2.2,
    (h.2.2.2.2.2 rfl rfl).2.2⟩

/-- C7 (as stated, refuted).  When `Hijack` returns an error, `establishConnection` writes
status 502, not 500, and so does `webSocket.wss`. -/
theorem establishConnection_hijack_failure_counterexample :
    hijackFails.HijackErr ≠ none ∧
    (entry.establishConnection hijackFails 3 acceptedPair).1 = [.Hijack, .WriteHeader 502] ∧
    ¬ HijackFailureAnswer (entry.establishConnection hijackFails 3 acceptedPair).1 ∧
    statusCodes (webSocket.wss hijackFails getExample) = [502] ∧
    ¬ HijackFailureAnswer (webSocket.wss hijackFails getExample) := by
  decide

/-- C7 (amended).  `transferHttp` answers with status 500 both when the response writer does
not support hijacking and when `Hijack` returns an error; `establishConnection` (the CONNECT
tunnels) and `webSocket.wss` answer an error of `Hijack` with status 502. -/
theorem hijack_failure_answers (env : Env) (fuel : Nat) (w : World) (req : Request) :
    ((env.Hijacker = false ∨ env.HijackErr ≠ none) →
      statusCodes (transferHttp env fuel w req).trace = [500]) ∧
    (env.Hijacker = true → env.HijackErr ≠ none →
      entry.establishConnection env fuel w = ([.Hijack, .WriteHeader 502], .err)) ∧
    (env.Hijacker = true → env.HijackErr ≠ none → env.DumpRequestErr = none →
      webSocket.wss env req = [.call "wss", .Hijack, .WriteHeader 502]) := by
  obtain ⟨hj, he, de, we, pk, it, du⟩ := env
  refine ⟨?_, ?_, ?_⟩
  · intro h
    simp only at h
    cases hj <;> cases he <;> simp at h <;>
      simp [transferHttp, Run.after, httpError, statusCodes]
  · intro h1 h2
    simp only at h1 h2
    subst h1
    cases he
    · exact absurd rfl h2
    · simp [entry.establishConnection]
  · intro h1 h2 h3
    simp only at h1 h2 h3
    subst h1 h3
    cases he
    · exact absurd rfl h2
    · simp [webSocket.wss]

/-- The unchecked assertion `res.(http.Hijacker)` of `establishConnection` and `wss` panics on
a writer without hijacking support, before any status is written. -/
theorem hijack_unsupported_panics (env : Env) (fuel : Nat) (w : World) (req : Request)
    (h : env.Hijacker = false) :
    entry.establishConnection env fuel w = ([.panic], .panic) ∧
    (env.DumpRequestErr = none → webSocket.wss env req = [.call "wss", .panic]) := by
  obtain ⟨hj, he, de, we, pk, it, du⟩ := env
  simp only at h
  subst h
  refine ⟨by simp [entry.establishConnection], ?_⟩
  intro hd
  simp only at hd
  subst hd
  simp [webSocket.wss]

theorem cconnClose_ending_ne_panicked (fuel : Nat) (w : World) :
    (cconnClose fuel w).ending ≠ .panicked := by
  unfold cconnClose
  cases wrapClientConn.Close fuel { w with trace := [] } <;> simp

/-- C8 (as stated, refuted).  A lazy tunnel whose first bytes are not TLS makes its one
upstream dial after the peek, but when that dial fails no raw relay follows: the client
connection is closed. -/
theorem lazy_dial_failure_counterexample :
    entry.shouldHandle NewProxy connectExample = true ∧ lazyClient.UpstreamCert = false ∧
    dialFails.peek = .ok [71, 69, 84] ∧ dialFails.IsTls [71, 69, 84] = false ∧
    (entry.handleConnect NewProxy lazyClient dialFails 3 acceptedPair connectExample).trace =
      [.call "handleConnect", .call "httpsDialLazyAttack", .Hijack, .connHijacked,
        connectionEstablished, .Peek 3, .dial "attacker.httpsDial", .enterClientClose,
        .clientTransportClose, .closeChan, .ClientDisconnected "A", .ClientDisconnected "B",
        .flowFinish] ∧
    ¬ LazyRawRelay
      (entry.handleConnect NewProxy lazyClient dialFails 3 acceptedPair connectExample).trace :=
  ⟨by decide, by decide, rfl, by decide, by decide, by decide⟩

/-- The trace of an intercepted `CONNECT` in eager mode starts with the dial, and holds no
other dial. -/
theorem handleConnect_eager (proxy : Proxy) (cconn : ClientConn) (env : Env) (fuel : Nat)
    (w : World) (req : Request) (hi : entry.shouldHandle proxy req = true)
    (hu : cconn.UpstreamCert = true) :
    beforeFirstDial (entry.handleConnect proxy cconn env fuel w req).trace =
      [.call "handleConnect", .call "httpsDialFirstAttack"] ∧
    ((entry.handleConnect proxy cconn env fuel w req).trace.filter Event.isDial) =
      [.dial "attacker.httpsDial"] := by
  have hf := cconnClose_filter Event.isDial isDial_of_closeEvent fuel w
  obtain ⟨hj, he, de, we, pk, it, du⟩ := env
  obtain ⟨conn, tls, uc⟩ := cconn
  simp only at hu
  subst hu
  constructor
  · simp [entry.handleConnect, hi, Run.deferred_trace, Run.after, entry.httpsDialFirstAttack,
      beforeFirstDial, List.takeWhile, Event.isDial]
  · simp only [entry.handleConnect, hi, entry.httpsDialFirstAttack,
      entry.establishConnection, Run.deferred, Run.after, Run.andThen]
    generalize cconnClose fuel w = c at hf ⊢
    obtain ⟨ct, ce⟩ := c
    simp only at hf
    cases hj <;> cases he <;> cases de <;> cases we <;> rcases pk with _ | peek <;>
      cases ce <;>
      simp [Established.afterClose, List.filter_append, hf, Event.isDial,
        connectionEstablished]
    all_goals
      cases it peek <;>
        simp [List.filter_append, hf, Event.isDial]

theorem cconnClose_any_isDial (fuel : Nat) (w : World) :
    (cconnClose fuel w).trace.any Event.isDial = false := by
  rw [List.any_eq_false]
  intro e he
  have := cconnClose_all (fun e => e.isDial = false) isDial_of_closeEvent fuel w e he
  simp [this]

/-- In lazy mode every upstream dial of `handleConnect` comes after the tunnel-established
line and the peek. -/
theorem handleConnect_lazy_order (proxy : Proxy) (cconn : ClientConn) (env : Env)
    (fuel : Nat) (w : World) (req : Request) (hi : entry.shouldHandle proxy req = true)
    (hu : cconn.UpstreamCert = false)
    (hd : (entry.handleConnect proxy cconn env fuel w req).trace.any Event.isDial = true) :
    connectionEstablished ∈
      beforeFirstDial (entry.handleConnect proxy cconn env fuel w req).trace ∧
    Event.Peek 3 ∈ beforeFirstDial (entry.handleConnect proxy cconn env fuel w req).trace := by
  have hf := cconnClose_any_isDial fuel w
  obtain ⟨hj, he, de, we, pk, it, du⟩ := env
  obtain ⟨conn, tls, uc⟩ := cconn
  simp only at hu
  subst hu
  revert hd
  simp only [entry.handleConnect, hi, entry.httpsDialLazyAttack,
    entry.establishConnection, Run.deferred, Run.after, Run.andThen]
  generalize cconnClose fuel w = c at hf ⊢
  obtain ⟨ct, ce⟩ := c
  simp only at hf
  cases hj <;> cases he <;> cases de <;> cases we <;> rcases pk with _ | peek <;>
    cases ce <;>
    simp [Established.afterClose, hf, Event.isDial, beforeFirstDial, List.takeWhile,
      connectionEstablished]
  all_goals
    cases it peek <;>
      simp [hf, Event.isDial, List.takeWhile]

/-- The trace of `handleConnect` for an intercepted lazy tunnel that starts with a TLS
handshake: the attacker's lazy attack, which makes the upstream dial, is entered after the
tunnel-established line and the peek. -/
theorem handleConnect_lazy_tls (proxy : Proxy) (cconn : ClientConn) (env : Env) (fuel : Nat)
    (w : World) (req : Request) (hi : entry.shouldHandle proxy req = true)
    (hu : cconn.UpstreamCert = false)
    (h1 : env.Hijacker = true) (h2 : env.HijackErr = none) (h3 : env.writeErr = none)
    (peek : List Nat) (h4 : env.peek = .ok peek) (h5 : env.IsTls peek = true) :
    (entry.handleConnect proxy cconn env fuel w req).trace =
      [.call "handleConnect", .call "httpsDialLazyAttack", .Hijack, .connHijacked,
        connectionEstablished, .Peek 3, .setTls, .call "attacker.httpsLazyAttack",
        .flowFinish] := by
  obtain ⟨hj, he, de, we, pk, it, du⟩ := env
  obtain ⟨conn, tls, uc⟩ := cconn
  simp only at hu h1 h2 h3 h4 h5
  subst hu h1 h2 h3 h4
  simp [entry.handleConnect, hi, entry.httpsDialLazyAttack, entry.establishConnection,
    Run.deferred, Run.after, h5]

/-- The trace of `handleConnect` for an intercepted lazy tunnel whose first bytes are not
TLS. -/
theorem handleConnect_lazy_raw (proxy : Proxy) (cconn : ClientConn) (env : Env) (fuel : Nat)
    (w : World) (req : Request) (hi : entry.shouldHandle proxy req = true)
    (hu : cconn.UpstreamCert = false)
    (h1 : env.Hijacker = true) (h2 : env.HijackErr = none) (h3 : env.writeErr = none)
    (peek : List Nat) (h4 : env.peek = .ok peek) (h5 : env.IsTls peek = false) :
    (entry.handleConnect proxy cconn env fuel w req).trace =
      [.call "handleConnect", .call "httpsDialLazyAttack", .Hijack, .connHijacked,
        connectionEstablished, .Peek 3, .dial "attacker.httpsDial"] ++
        (if env.dialErr = none then [.transfer, .connClose] else []) ++
        (cconnClose fuel w).trace ++
        (if (cconnClose fuel w).ending = .returned then [.flowFinish] else []) := by
  have hnp := cconnClose_ending_ne_panicked fuel w
  obtain ⟨hj, he, de, we, pk, it, du⟩ := env
  obtain ⟨conn, tls, uc⟩ := cconn
  simp only at hu h1 h2 h3 h4 h5
  subst hu h1 h2 h3 h4
  cases de <;>
    simp [entry.handleConnect, hi, entry.httpsDialLazyAttack, entry.establishConnection,
      Run.deferred_trace, Run.after, h5, hnp]

/-- C8 (amended).  For an intercepted `CONNECT`: in eager mode (`UpstreamCert` true) the
upstream dial is attempted before the tunnel-established line is written and before any
peek; in lazy mode (`UpstreamCert` false) every upstream dial is preceded by the
tunnel-established line and by the peek of 3 bytes, and when those bytes are not TLS exactly
one upstream dial is attempted, no `Request` or `Response` hook is called, and the raw relay
follows the dial if the dial succeeds, while after a failed dial the client connection is
closed without relay. -/
theorem handleConnect_dial_order (proxy : Proxy) (cconn : ClientConn) (env : Env)
    (fuel : Nat) (w : World) (req : Request) (hi : entry.shouldHandle proxy req = true) :
    (cconn.UpstreamCert = true →
      beforeFirstDial (entry.handleConnect proxy cconn env fuel w req).trace =
        [.call "handleConnect", .call "httpsDialFirstAttack"] ∧
      (entry.handleConnect proxy cconn env fuel w req).trace.filter Event.isDial =
        [.dial "attacker.httpsDial"]) ∧
    (cconn.UpstreamCert = false →
      (entry.handleConnect proxy cconn env fuel w req).trace.any Event.isDial = true →
      connectionEstablished ∈
        beforeFirstDial (entry.handleConnect proxy cconn env fuel w req).trace ∧
      Event.Peek 3 ∈
        beforeFirstDial (entry.handleConnect proxy cconn env fuel w req).trace) ∧
    (cconn.UpstreamCert = false → env.Hijacker = true → env.HijackErr = none →
      env.writeErr = none → ∀ peek, env.peek = .ok peek → env.IsTls peek = true →
      (entry.handleConnect proxy cconn env fuel w req).trace =
        [.call "handleConnect", .call "httpsDialLazyAttack", .Hijack, .connHijacked,
          connectionEstablished, .Peek 3, .setTls, .call "attacker.httpsLazyAttack",
          .flowFinish]) ∧
    (cconn.UpstreamCert = false → env.Hijacker = true → env.HijackErr = none →
      env.writeErr = none → ∀ peek, env.peek = .ok peek → env.IsTls peek = false →
      (entry.handleConnect proxy cconn env fuel w req).trace.filter Event.isDial =
        [.dial "attacker.httpsDial"] ∧
      (entry.handleConnect proxy cconn env fuel w req).trace.filter Event.isFlowHook = [] ∧
      (env.dialErr = none →
        (fromFirstDial (entry.handleConnect proxy cconn env fuel w req).trace).take 3 =
          [.dial "attacker.httpsDial", .transfer, .connClose]) ∧
      (env.dialErr ≠ none →
        Event.transfer ∉ (entry.handleConnect proxy cconn env fuel w req).trace ∧
        fromFirstDial (entry.handleConnect proxy cconn env fuel w req).trace =
          [.dial "attacker.httpsDial"] ++ (cconnClose fuel w).trace ++
            (if (cconnClose fuel w).ending = .returned then [.flowFinish] else []))) := by
  refine ⟨?_, ?_, ?_, ?_⟩
  · intro hu
    exact handleConnect_eager proxy cconn env fuel w req hi hu
  · intro hu hd
    exact handleConnect_lazy_order proxy cconn env fuel w req hi hu hd
  · intro hu h1 h2 h3 peek h4 h5
    exact handleConnect_lazy_tls proxy cconn env fuel w req hi hu h1 h2 h3 peek h4 h5
  · intro hu h1 h2 h3 peek h4 h5
    have ht := handleConnect_lazy_raw proxy cconn env fuel w req hi hu h1 h2 h3 peek h4 h5
    have hfd := cconnClose_filter Event.isDial isDial_of_closeEvent fuel w
    have hff := cconnClose_filter Event.isFlowHook isFlowHook_of_closeEvent fuel w
    have htr := transfer_not_mem_cconnClose fuel w
    rw [ht]
    refine ⟨?_, ?_, ?_, ?_⟩
    · by_cases hde : env.dialErr = none <;>
        by_cases hce : (cconnClose fuel w).ending = .returned <;>
        simp [hde, hce, List.filter_append, hfd, Event.isDial, connectionEstablished]
    · by_cases hde : env.dialErr = none <;>
        by_cases hce : (cconnClose fuel w).ending = .returned <;>
        simp [hde, hce, List.filter_append, hff, Event.isFlowHook, connectionEstablished]
    · intro hde
      simp [hde, fromFirstDial, List.dropWhile, Event.isDial, connectionEstablished]
    · intro hde
      by_cases hce : (cconnClose fuel w).ending = .returned <;>
        simp [hde, hce, htr, fromFirstDial, List.dropWhile, Event.isDial,
          connectionEstablished]

theorem handleConnect_dial_order_witness :
    (fromFirstDial
      (entry.handleConnect NewProxy lazyClient allGood 3 acceptedPair connectExample).trace).take
        3 = [.dial "attacker.httpsDial", .transfer, .connClose] :=
  (handleConnect_dial_order NewProxy lazyClient allGood 3 acceptedPair connectExample
    rfl).2.2.2 rfl rfl rfl rfl [71, 69, 84] rfl rfl |>.2.2.1 rfl

theorem logErrLoop_eq (msg : List Char) (strs : List (List Char)) :
    logErrLoop msg strs = (!strs.any (fun str => Contains msg str), [(.Debug, msg)]) := by
  induction strs with
  | nil => rfl
  | cons str rest ih =>
    cases h : Contains msg str <;> simp [logErrLoop, h, ih]

/-- C13 (evaluation of the code).  `logErr` writes one entry at severity `Debug` whatever the
message: an error without any benign substring, such as `unexpected EOF`, is logged at the
same severity as a benign one, not at a strictly higher one; only the result `loged`
tells the two classes apart. -/
theorem logErr_always_logs_at_Debug (msg : List Char) :
    (logErr msg).2 = [(.Debug, msg)] ∧
    (logErr msg).1 = !isNormalErr msg ∧
    isNormalErr "unexpected EOF".data = false ∧
    isNormalErr "read tcp 10.0.0.1:80: i/o timeout".data = true ∧
    (logErr "unexpected EOF".data).2.map (fun entry => entry.1.rank) =
      (logErr "read tcp 10.0.0.1:80: i/o timeout".data).2.map (fun entry => entry.1.rank) := by
  refine ⟨?_, ?_, by decide, by decide, ?_⟩
  · simp [logErr, logErrLoop_eq]
  · simp [logErr, logErrLoop_eq, isNormalErr]
  · simp [logErr, logErrLoop_eq, Level.rank]

theorem filter_isClientAction_map_CD (addons : List Addon) :
    (addons.map (fun addon => Event.ClientDisconnected addon.name)).filter
      Event.isClientAction = [] := by
  induction addons with
  | nil => rfl
  | cons a rest ih => simp [List.filter, Event.isClientAction, ih]

theorem filter_isClientAction_map_SD (addons : List Addon) :
    (addons.map (fun addon => Event.ServerDisconnected addon.name)).filter
      Event.isClientAction = [] := by
  induction addons with
  | nil => rfl
  | cons a rest ih => simp [List.filter, Event.isClientAction, ih]

/-- C14 (as stated, refuted).  With the client not marked `Tls` and a client transport that
is not a TCP connection, the first `Close` of the server wrapper does nothing to the client:
`CloseRead` finds no `*net.TCPConn` and the read half stays open. -/
theorem wrapServerConn_Close_no_CloseRead_counterexample :
    rawPairNoTCP.ClientConn = some lazyClient ∧ lazyClient.Tls = false ∧
    rawPairNoTCP.wsc.closed = false ∧
    (wrapServerConn.Close 3 rawPairNoTCP).trace =
      [.enterServerClose, .serverTransportClose, .ServerDisconnected "A",
        .ServerDisconnected "B"] ∧
    Event.clientCloseRead ∉ (wrapServerConn.Close 3 rawPairNoTCP).trace := by
  decide

theorem wrapServerConn_Close_action_raw (fuel : Nat) (w : World) (cconn : ClientConn)
    (hmu2 : w.wsc.closeMu = false) (hcl : w.wsc.closed = false)
    (hc : w.ClientConn = some cconn) (ht : cconn.Tls = false) :
    (wrapServerConn.Close (fuel + 1) w).trace.filter Event.isClientAction =
      w.trace.filter Event.isClientAction ++
        (if cconn.Conn = .wrapClientConn ∧ w.clientTransport.isTCP = true then
          [.clientCloseRead] else []) := by
  obtain ⟨p, ⟨mu, cl, ce⟩, ⟨mu2, cl2, ce2⟩, cc, sc, car, ⟨tcp, n1, f1⟩, ⟨tcp2, n2, f2⟩, tr⟩ := w
  obtain ⟨conn, tls, uc⟩ := cconn
  simp only at hmu2 hcl hc ht
  subst hmu2 hcl hc ht
  cases conn <;> cases tcp <;>
    simp [wrapServerConn.Close, wrapClientConn.CloseRead, World.emit,
      World.unlockServer, dispatch_eq, Outcome.trace, List.filter_append,
      filter_isClientAction_map_SD, List.filter, Event.isClientAction]

theorem wrapServerConn_Close_action_keep (fuel : Nat) (w : World) (cconn : ClientConn)
    (hmu2 : w.wsc.closeMu = false) (hcl : w.wsc.closed = false)
    (hc : w.ClientConn = some cconn) (ht : cconn.Tls = true)
    (hcar : w.closeAfterResponse = true) :
    (wrapServerConn.Close (fuel + 1) w).trace.filter Event.isClientAction =
      w.trace.filter Event.isClientAction := by
  obtain ⟨p, ⟨mu, cl, ce⟩, ⟨mu2, cl2, ce2⟩, cc, sc, car, ⟨tcp, n1, f1⟩, ⟨tcp2, n2, f2⟩, tr⟩ := w
  obtain ⟨conn, tls, uc⟩ := cconn
  simp only at hmu2 hcl hc ht hcar
  subst hmu2 hcl hc ht hcar
  simp [wrapServerConn.Close, World.emit, World.unlockServer, dispatch_eq, Outcome.trace,
    List.filter_append, filter_isClientAction_map_SD, List.filter, Event.isClientAction]

theorem wrapServerConn_Close_action_foreign (fuel : Nat) (w : World) (cconn : ClientConn)
    (hmu2 : w.wsc.closeMu = false) (hcl : w.wsc.closed = false)
    (hc : w.ClientConn = some cconn) (ht : cconn.Tls = true)
    (hcar : w.closeAfterResponse = false) (hconn : cconn.Conn = .foreign) :
    (wrapServerConn.Close (fuel + 1) w).trace.filter Event.isClientAction =
      w.trace.filter Event.isClientAction ++ [.foreignConnClose] := by
  obtain ⟨p, ⟨mu, cl, ce⟩, ⟨mu2, cl2, ce2⟩, cc, sc, car, ⟨tcp, n1, f1⟩, ⟨tcp2, n2, f2⟩, tr⟩ := w
  obtain ⟨conn, tls, uc⟩ := cconn
  simp only at hmu2 hcl hc ht hcar hconn
  subst hmu2 hcl hc ht hcar hconn
  simp [wrapServerConn.Close, World.emit, World.unlockServer, dispatch_eq, Outcome.trace,
    List.filter_append, filter_isClientAction_map_SD, List.filter, Event.isClientAction]

theorem wrapServerConn_Close_action_client_closed (fuel : Nat) (p : Proxy) (ce ce2 : Err)
    (sc uc : Bool) (ct st : Transport) (tr : List Event) :
    (wrapServerConn.Close (fuel + 2)
      { proxy := p, wcc := ⟨false, true, ce⟩, wsc := ⟨false, false, ce2⟩,
        ClientConn := some ⟨.wrapClientConn, true, uc⟩, ServerConn := sc,
        closeAfterResponse := false, clientTransport := ct, serverTransport := st,
        trace := tr }).trace.filter Event.isClientAction =
      tr.filter Event.isClientAction ++ [.enterClientClose] := by
  simp [wrapClientConn.Close, wrapServerConn.Close, World.emit,
    World.unlockClient, World.unlockServer, dispatch_eq, Outcome.trace,
    List.filter_append, filter_isClientAction_map_CD,
    filter_isClientAction_map_SD, Event.isClientAction]

theorem wrapServerConn_Close_action_no_ServerConn (fuel : Nat) (p : Proxy) (ce ce2 : Err)
    (uc : Bool) (ct st : Transport) (tr : List Event) :
    (wrapServerConn.Close (fuel + 2)
      { proxy := p, wcc := ⟨false, false, ce⟩, wsc := ⟨false, false, ce2⟩,
        ClientConn := some ⟨.wrapClientConn, true, uc⟩, ServerConn := false,
        closeAfterResponse := false, clientTransport := ct, serverTransport := st,
        trace := tr }).trace.filter Event.isClientAction =
      tr.filter Event.isClientAction ++ [.enterClientClose] := by
  simp [wrapClientConn.Close, wrapServerConn.Close, World.emit,
    World.unlockClient, World.unlockServer, dispatch_eq, Outcome.trace,
    List.filter_append, filter_isClientAction_map_CD,
    filter_isClientAction_map_SD, Event.isClientAction]

theorem wrapServerConn_Close_action_close (fuel : Nat) (w : World) (cconn : ClientConn)
    (hmu : w.wcc.closeMu = false) (hmu2 : w.wsc.closeMu = false)
    (hcl : w.wsc.closed = false)
    (hc : w.ClientConn = some cconn) (ht : cconn.Tls = true)
    (hcar : w.closeAfterResponse = false) (hconn : cconn.Conn = .wrapClientConn) :
    (wrapServerConn.Close (fuel + 3) w).trace.filter Event.isClientAction =
      w.trace.filter Event.isClientAction ++ [.enterClientClose] := by
  cases hre : w.reentrant with
  | true =>
    obtain ⟨w1, h1, t1⟩ := wrapServerConn_Close_reentrant fuel w hmu hmu2 hre
    rw [h1]
    show w1.trace.filter _ = _
    rw [t1]
    simp [List.filter_append, filter_isClientAction_map_CD, filter_isClientAction_map_SD,
      Event.isClientAction]
  | false =>
    obtain ⟨p, ⟨mu, cl, ce⟩, ⟨mu2, cl2, ce2⟩, cc, sc, car, ct, st, tr⟩ := w
    obtain ⟨conn, tls, uc⟩ := cconn
    simp only at hmu hmu2 hcl hc ht hcar hconn
    subst hmu hmu2 hcl hc ht hcar hconn
    cases cl
    · cases sc
      · exact wrapServerConn_Close_action_no_ServerConn (fuel + 1) p ce ce2 uc ct st tr
      · simp [World.reentrant] at hre
    · exact wrapServerConn_Close_action_client_closed (fuel + 1) p ce ce2 sc uc ct st tr

/-- C14 (amended).  On the first `Close` of a server wrapper whose context has a client
connection, what is done to the client follows from the two flags and from what the client
connection is: with `Tls` false, `CloseRead` closes the read half when `ClientConn.Conn` is
the client wrapper and its transport a TCP connection, and nothing is done otherwise; with
`Tls` true and `closeAfterResponse` false, `Close` is called once on `ClientConn.Conn`; with
`Tls` true and `closeAfterResponse` true, nothing is done.  A later `Close` of the same
server wrapper does nothing to the client. -/
theorem wrapServerConn_Close_client_action (fuel : Nat) (w : World) (cconn : ClientConn)
    (hmu : w.wcc.closeMu = false) (hmu2 : w.wsc.closeMu = false)
    (hcl : w.wsc.closed = false) (hc : w.ClientConn = some cconn) :
    (cconn.Tls = false →
      (wrapServerConn.Close (fuel + 3) w).trace.filter Event.isClientAction =
        w.trace.filter Event.isClientAction ++
          (if cconn.Conn = .wrapClientConn ∧ w.clientTransport.isTCP = true then
            [.clientCloseRead] else [])) ∧
    (cconn.Tls = true → w.closeAfterResponse = false →
      (wrapServerConn.Close (fuel + 3) w).trace.filter Event.isClientAction =
        w.trace.filter Event.isClientAction ++
          (if cconn.Conn = .wrapClientConn then [.enterClientClose]
           else [.foreignConnClose])) ∧
    (cconn.Tls = true → w.closeAfterResponse = true →
      (wrapServerConn.Close (fuel + 3) w).trace.filter Event.isClientAction =
        w.trace.filter Event.isClientAction) ∧
    (∀ w1 : World, w1.wsc.closeMu = false → w1.wsc.closed = true →
      (wrapServerConn.Close (fuel + 1) w1).trace.filter Event.isClientAction =
        w1.trace.filter Event.isClientAction) := by
  refine ⟨?_, ?_, ?_, ?_⟩
  · intro ht
    exact wrapServerConn_Close_action_raw (fuel + 2) w cconn hmu2 hcl hc ht
  · intro ht hcar
    cases hconn : cconn.Conn with
    | wrapClientConn =>
      rw [wrapServerConn_Close_action_close fuel w cconn hmu hmu2 hcl hc ht hcar hconn]
      simp
    | foreign =>
      rw [wrapServerConn_Close_action_foreign (fuel + 2) w cconn hmu2 hcl hc ht hcar hconn]
      simp
  · intro ht hcar
    exact wrapServerConn_Close_action_keep (fuel + 2) w cconn hmu2 hcl hc ht hcar
  · intro w1 h1 h2
    rw [wrapServerConn_Close_closed fuel w1 h1 h2]
    simp [Outcome.trace, List.filter_append, List.filter, Event.isClientAction]

theorem wrapServerConn_Close_client_action_witness :
    (wrapServerConn.Close 3 rawPair).trace.filter Event.isClientAction = [.clientCloseRead] ∧
    (wrapServerConn.Close 3 tlsPairCloseAfterResponse).trace.filter Event.isClientAction
      = [] :=
  ⟨(wrapServerConn_Close_client_action 0 rawPair lazyClient rfl rfl rfl rfl).1 rfl,
    (wrapServerConn_Close_client_action 0 tlsPairCloseAfterResponse
      { Conn := .wrapClientConn, Tls := true, UpstreamCert := false } rfl rfl rfl rfl).2.2.1
        rfl rfl⟩

end proxy
